import Mathlib

/-!
Verification of the font loading core (`src/font/loader.rs`).

The file shallowly embeds `FontLoader::get` and its state
(`FontLoaderState`) as pure Lean functions with explicit state passing.
The external collaborator types (`Font`, `FontInfo`, `FontClass`,
`FontProvider` from `super`) are not part of the given source tree and are
modelled from the spec.  A trace of provider interactions (fetch calls and
successful parses) is threaded through the embedding so that claims about
"no new fetch or parse" are statable; the trace never influences control
flow.
-/

namespace FontLoaderModel

/-- Modelled from the spec: `FontClass` is an opaque comparable tag with no
internal structure beyond equality.  We model it as a natural number. -/
abbrev FontClass := Nat

/-- Modelled from the spec: `FontInfo` is an immutable descriptor carrying a
set of `FontClass` and supporting structural equality/hashing as a cache
key.  The `id` field models the rest of the descriptor (name etc.), so that
two infos with equal class sets can still be structurally distinct. -/
structure FontInfo where
  id : Nat
  classes : List FontClass
deriving DecidableEq, Repr

/-- Modelled from the spec: a `Font` is an opaque parsed artifact exposing a
character-to-glyph mapping; the loader only queries key presence
(`font.mapping.contains_key(&query.character)` in the source). -/
structure Font where
  mapping : List (Char × Nat)
deriving DecidableEq, Repr

/-- Association-list lookup, modelling `HashMap::get`: the value of the
first pair whose key equals `k`, if any. -/
def lookupKey {α β : Type} [DecidableEq α] (k : α) : List (α × β) → Option β
  | [] => none
  | (k', v) :: rest => if k' = k then some v else lookupKey k rest

/-- Whether the font's character mapping contains the character, modelling
`font.mapping.contains_key(&c)`. -/
def Font.hasChar (f : Font) (c : Char) : Bool :=
  (lookupKey c f.mapping).isSome

/-- Modelled from the spec: the combined outcome of asking a provider for
the bytes of an advertised info and turning them into a `Font`.
`declined` is `provider.get(info) == None`; `readFail` is a failure of
`source.read_to_end`; `parseFail` is a failure of `Font::new`;
`success` carries the parsed font. -/
inductive FetchResult where
  | declined
  | readFail
  | parseFail
  | success (font : Font)
deriving DecidableEq, Repr

/-- Modelled from the spec: a font provider exposes a stable ordered list
of available infos and a fetch operation that may fail.  Stability of
`available` across calls is inherent in the functional model. -/
structure FontProvider where
  available : List FontInfo
  fetch : FontInfo → FetchResult

/-- A query for a font with specific properties (struct `FontQuery`). -/
structure FontQuery where
  /-- Which character is needed. -/
  character : Char
  /-- Which classes the font has to be part of. -/
  classes : List FontClass
  /-- The font matching the leftmost class in this sequence should be returned. -/
  fallback : List FontClass
deriving DecidableEq, Repr

/-- Internal state of the font loader (struct `FontLoaderState`).
`fonts` is the append-only store of loaded fonts with their optional
external indices; `query_cache` and `info_cache` model the two `HashMap`s
as association lists; `inner_index` maps external indices to internal
ones. -/
structure FontLoaderState where
  fonts : List (Option Nat × Font)
  query_cache : List (FontQuery × Nat)
  info_cache : List (FontInfo × Nat)
  inner_index : List Nat
deriving DecidableEq, Repr

/-- The empty state built by `FontLoader::new`. -/
def FontLoaderState.init : FontLoaderState := ⟨[], [], [], []⟩

/-- Events recording provider interactions during `get`: a call to
`provider.get(info)` and a successful parse of the bytes of `info`. -/
inductive TraceEvent where
  | fetch (info : FontInfo)
  | parsed (info : FontInfo)
deriving DecidableEq, Repr

/-- Result of scanning part of the candidate space:
`found` is an early return with the served external index and font;
`exhausted` means the scanned part yielded no match and scanning may
continue with the carried state; `aborted` models the `?`-return on a
byte-read or parse failure (the whole `get` call gives up with the carried
state); `panicked` models an out-of-bounds store access. -/
inductive ScanResult where
  | found (ext : Nat) (font : Font) (st : FontLoaderState) (tr : List TraceEvent)
  | exhausted (st : FontLoaderState) (tr : List TraceEvent)
  | aborted (st : FontLoaderState) (tr : List TraceEvent)
  | panicked (tr : List TraceEvent)
deriving DecidableEq, Repr

/-- Prepend trace events produced before a scan result. -/
def ScanResult.addTrace (tr : List TraceEvent) : ScanResult → ScanResult
  | .found e f st tr' => .found e f st (tr ++ tr')
  | .exhausted st tr' => .exhausted st (tr ++ tr')
  | .aborted st tr' => .aborted st (tr ++ tr')
  | .panicked tr' => .panicked (tr ++ tr')

/-- The viability-and-match test of the scan body:
`info.classes.contains(class) && query.classes.iter().all(|c| info.classes.contains(c))`. -/
def viableFor (query : FontQuery) (cls : FontClass) (info : FontInfo) : Bool :=
  info.classes.contains cls && query.classes.all (fun c => info.classes.contains c)

/-- The character check and commit part of the loop body (source lines
101-123): look at the font stored at `index`, and on a character match
cache the query, assign an external index if the entry has none, and
return. -/
def commitCandidate (query : FontQuery) (index : Nat) (st : FontLoaderState)
    (tr : List TraceEvent) : ScanResult :=
  match st.fonts[index]? with
  | none => .panicked tr
  | some (extOpt, font) =>
    if font.hasChar query.character then
      let st1 : FontLoaderState := { st with query_cache := (query, index) :: st.query_cache }
      match extOpt with
      | some e => .found e font st1 tr
      | none =>
        let newIndex := st1.inner_index.length
        let st2 : FontLoaderState := { st1 with
          inner_index := st1.inner_index ++ [index],
          fonts := st1.fonts.set index (some newIndex, font) }
        .found newIndex font st2 tr
    else .exhausted st tr

/-- One iteration of the innermost loop body of `get` for the candidate
`(cls, provider, info)` (source lines 74-124).  `exhausted` plays the role
of `continue`. -/
def tryCandidate (query : FontQuery) (provider : FontProvider) (cls : FontClass)
    (info : FontInfo) (st : FontLoaderState) : ScanResult :=
  if viableFor query cls info then
    match lookupKey info st.info_cache with
    | some index => commitCandidate query index st []
    | none =>
      match provider.fetch info with
      | .declined => .exhausted st [.fetch info]
      | .readFail => .aborted st [.fetch info]
      | .parseFail => .aborted st [.fetch info]
      | .success font =>
        let index := st.fonts.length
        let st1 : FontLoaderState := { st with
          info_cache := (info, index) :: st.info_cache,
          fonts := st.fonts ++ [(none, font)] }
        commitCandidate query index st1 [.fetch info, .parsed info]
  else .exhausted st []

/-- The innermost loop of `get`: iterate the provider's advertised infos in
order. -/
def scanInfos (query : FontQuery) (provider : FontProvider) (cls : FontClass)
    (infos : List FontInfo) (st : FontLoaderState) : ScanResult :=
  match infos with
  | [] => .exhausted st []
  | info :: rest =>
    match tryCandidate query provider cls info st with
    | .exhausted st' tr => (scanInfos query provider cls rest st').addTrace tr
    | r => r

/-- The middle loop of `get`: iterate the providers in registration
order. -/
def scanProviders (query : FontQuery) (provs : List FontProvider) (cls : FontClass)
    (st : FontLoaderState) : ScanResult :=
  match provs with
  | [] => .exhausted st []
  | p :: rest =>
    match scanInfos query p cls p.available st with
    | .exhausted st' tr => (scanProviders query rest cls st').addTrace tr
    | r => r

/-- The outermost loop of `get`: iterate the fallback classes in priority
order. -/
def scanClasses (query : FontQuery) (provs : List FontProvider)
    (classes : List FontClass) (st : FontLoaderState) : ScanResult :=
  match classes with
  | [] => .exhausted st []
  | cls :: rest =>
    match scanProviders query provs cls st with
    | .exhausted st' tr => (scanClasses query provs rest st').addTrace tr
    | r => r

/-- Outcome of a `get` call: `ok` carries the external index and the served
font; `noMatch` is the `None` return (exhaustion or aborted scan);
`panic` models a panicking `unwrap` or out-of-bounds index. -/
inductive GetOutcome where
  | ok (ext : Nat) (font : Font)
  | noMatch
  | panic
deriving DecidableEq, Repr

/-- Full result of a `get` call: the outcome, the loader state afterwards,
and the trace of provider interactions performed by the call. -/
structure GetResult where
  outcome : GetOutcome
  state : FontLoaderState
  trace : List TraceEvent
deriving DecidableEq, Repr

/-- `FontLoader::get`: serve from the query cache if possible (source lines
56-66, with the `unwrap` of the external index modelled as a possible
panic), otherwise scan fallback classes, providers and infos in order
(source lines 68-131). -/
def get (provs : List FontProvider) (query : FontQuery)
    (st : FontLoaderState) : GetResult :=
  match lookupKey query st.query_cache with
  | some index =>
    match st.fonts[index]? with
    | some (some ext, font) => ⟨.ok ext font, st, []⟩
    | some (none, _) => ⟨.panic, st, []⟩
    | none => ⟨.panic, st, []⟩
  | none =>
    match scanClasses query provs query.fallback st with
    | .found ext font st' tr => ⟨.ok ext font, st', tr⟩
    | .exhausted st' tr => ⟨.noMatch, st', tr⟩
    | .aborted st' tr => ⟨.noMatch, st', tr⟩
    | .panicked tr => ⟨.panic, st, tr⟩

/-- States of one loader reachable through any sequence of `get` calls,
with arbitrary provider lists at each step (providers may be added between
calls via `add_font_provider`). -/
inductive Reachable : FontLoaderState → Prop where
  | init : Reachable FontLoaderState.init
  | step (provs : List FontProvider) (query : FontQuery) {st : FontLoaderState} :
      Reachable st → Reachable (get provs query st).state

/-- The loader state carried by a scan result, when there is one. -/
def ScanResult.stateOpt : ScanResult → Option FontLoaderState
  | .found _ _ st _ => some st
  | .exhausted st _ => some st
  | .aborted st _ => some st
  | .panicked _ => none

/-- The trace events carried by a scan result. -/
def ScanResult.events : ScanResult → List TraceEvent
  | .found _ _ _ tr => tr
  | .exhausted _ tr => tr
  | .aborted _ tr => tr
  | .panicked tr => tr

@[simp] theorem lookupKey_nil {α β : Type} [DecidableEq α] (k : α) :
    lookupKey k ([] : List (α × β)) = none := rfl

@[simp] theorem lookupKey_cons {α β : Type} [DecidableEq α] (k k' : α) (v : β)
    (l : List (α × β)) :
    lookupKey k ((k', v) :: l) = if k' = k then some v else lookupKey k l := rfl

@[simp] theorem ScanResult.addTrace_nil (r : ScanResult) : r.addTrace [] = r := by
  cases r <;> simp [ScanResult.addTrace]

theorem ScanResult.addTrace_addTrace (t1 t2 : List TraceEvent) (r : ScanResult) :
    (r.addTrace t2).addTrace t1 = r.addTrace (t1 ++ t2) := by
  cases r <;> simp [ScanResult.addTrace]

@[simp] theorem ScanResult.stateOpt_addTrace (t : List TraceEvent) (r : ScanResult) :
    (r.addTrace t).stateOpt = r.stateOpt := by
  cases r <;> simp [ScanResult.addTrace, ScanResult.stateOpt]

@[simp] theorem ScanResult.events_addTrace (t : List TraceEvent) (r : ScanResult) :
    (r.addTrace t).events = t ++ r.events := by
  cases r <;> simp [ScanResult.addTrace, ScanResult.events]

/-- Exhaustive case characterization of one loop-body iteration: relates the
inputs of `tryCandidate` to the precise result it produces.  The ten cases
correspond to: info not matching the query; a cached internal index that is
out of bounds; a cached font lacking the character; a cached font serving
with an already-assigned external index; a cached font serving with a
freshly assigned external index; a declined fetch; a failing byte read; a
failing parse; a freshly loaded font lacking the character; and a freshly
loaded font serving. -/
inductive Step (q : FontQuery) (p : FontProvider) (cls : FontClass) (info : FontInfo)
    (st : FontLoaderState) : ScanResult → Prop where
  | notViable :
      viableFor q cls info = false →
      Step q p cls info st (.exhausted st [])
  | cachedMissing (i : Nat) :
      viableFor q cls info = true →
      lookupKey info st.info_cache = some i →
      st.fonts[i]? = none →
      Step q p cls info st (.panicked [])
  | cachedNoChar (i : Nat) (eo : Option Nat) (f : Font) :
      viableFor q cls info = true →
      lookupKey info st.info_cache = some i →
      st.fonts[i]? = some (eo, f) →
      f.hasChar q.character = false →
      Step q p cls info st (.exhausted st [])
  | cachedServe (i e : Nat) (f : Font) :
      viableFor q cls info = true →
      lookupKey info st.info_cache = some i →
      st.fonts[i]? = some (some e, f) →
      f.hasChar q.character = true →
      Step q p cls info st
        (.found e f ⟨st.fonts, (q, i) :: st.query_cache, st.info_cache, st.inner_index⟩ [])
  | cachedAssign (i : Nat) (f : Font) :
      viableFor q cls info = true →
      lookupKey info st.info_cache = some i →
      st.fonts[i]? = some (none, f) →
      f.hasChar q.character = true →
      Step q p cls info st
        (.found st.inner_index.length f
          ⟨st.fonts.set i (some st.inner_index.length, f),
           (q, i) :: st.query_cache, st.info_cache, st.inner_index ++ [i]⟩ [])
  | fetchDeclined :
      viableFor q cls info = true →
      lookupKey info st.info_cache = none →
      p.fetch info = .declined →
      Step q p cls info st (.exhausted st [.fetch info])
  | readFailed :
      viableFor q cls info = true →
      lookupKey info st.info_cache = none →
      p.fetch info = .readFail →
      Step q p cls info st (.aborted st [.fetch info])
  | parseFailed :
      viableFor q cls info = true →
      lookupKey info st.info_cache = none →
      p.fetch info = .parseFail →
      Step q p cls info st (.aborted st [.fetch info])
  | freshNoChar (f : Font) :
      viableFor q cls info = true →
      lookupKey info st.info_cache = none →
      p.fetch info = .success f →
      f.hasChar q.character = false →
      Step q p cls info st
        (.exhausted
          ⟨st.fonts ++ [(none, f)], st.query_cache,
           (info, st.fonts.length) :: st.info_cache, st.inner_index⟩
          [.fetch info, .parsed info])
  | freshServe (f : Font) :
      viableFor q cls info = true →
      lookupKey info st.info_cache = none →
      p.fetch info = .success f →
      f.hasChar q.character = true →
      Step q p cls info st
        (.found st.inner_index.length f
          ⟨st.fonts ++ [(some st.inner_index.length, f)],
           (q, st.fonts.length) :: st.query_cache,
           (info, st.fonts.length) :: st.info_cache,
           st.inner_index ++ [st.fonts.length]⟩
          [.fetch info, .parsed info])

theorem step_tryCandidate (q : FontQuery) (p : FontProvider) (cls : FontClass)
    (info : FontInfo) (st : FontLoaderState) :
    Step q p cls info st (tryCandidate q p cls info st) := by
  cases hv : viableFor q cls info with
  | false => simpa [tryCandidate, hv] using Step.notViable hv
  | true =>
    cases hc : lookupKey info st.info_cache with
    | some i =>
      cases hg : st.fonts[i]? with
      | none =>
        simpa [tryCandidate, commitCandidate, hv, hc, hg] using Step.cachedMissing i hv hc hg
      | some pair =>
        obtain ⟨eo, f⟩ := pair
        cases hch : f.hasChar q.character with
        | false =>
          simpa [tryCandidate, commitCandidate, hv, hc, hg, hch] using
            Step.cachedNoChar i eo f hv hc hg hch
        | true =>
          cases eo with
          | some e =>
            simpa [tryCandidate, commitCandidate, hv, hc, hg, hch] using
              Step.cachedServe i e f hv hc hg hch
          | none =>
            simpa [tryCandidate, commitCandidate, hv, hc, hg, hch] using
              Step.cachedAssign i f hv hc hg hch
    | none =>
      cases hf : p.fetch info with
      | declined => simpa [tryCandidate, hv, hc, hf] using Step.fetchDeclined hv hc hf
      | readFail => simpa [tryCandidate, hv, hc, hf] using Step.readFailed hv hc hf
      | parseFail => simpa [tryCandidate, hv, hc, hf] using Step.parseFailed hv hc hf
      | success f =>
        cases hch : f.hasChar q.character with
        | false =>
          simpa [tryCandidate, commitCandidate, hv, hc, hf, hch] using
            Step.freshNoChar f hv hc hf hch
        | true =>
          simpa [tryCandidate, commitCandidate, hv, hc, hf, hch] using
            Step.freshServe f hv hc hf hch

/-- The scan order of `get` as a flat list: fallback classes outermost,
then providers in registration order, then each provider's advertised infos
in listing order. -/
def candidates (provs : List FontProvider) (classes : List FontClass) :
    List (FontClass × FontProvider × FontInfo) :=
  classes.flatMap (fun cls => provs.flatMap (fun p => p.available.map (fun info => (cls, p, info))))

/-- Linear presentation of the triple-nested scan: process the flattened
candidate list in order. -/
def scanCands (query : FontQuery) (cs : List (FontClass × FontProvider × FontInfo))
    (st : FontLoaderState) : ScanResult :=
  match cs with
  | [] => .exhausted st []
  | c :: rest =>
    match tryCandidate query c.2.1 c.1 c.2.2 st with
    | .exhausted st1 tr => (scanCands query rest st1).addTrace tr
    | r => r

theorem scanCands_append (query : FontQuery) (l1 l2 : List (FontClass × FontProvider × FontInfo))
    (st : FontLoaderState) :
    scanCands query (l1 ++ l2) st =
      match scanCands query l1 st with
      | .exhausted st1 tr => (scanCands query l2 st1).addTrace tr
      | r => r := by
  induction l1 generalizing st with
  | nil => simp [scanCands]
  | cons c l1 ih =>
    simp only [List.cons_append, scanCands]
    cases tryCandidate query c.2.1 c.1 c.2.2 st with
    | exhausted st1 tr =>
      dsimp only [List.append_eq]
      rw [ih st1]
      cases scanCands query l1 st1 with
      | exhausted st2 tr2 => exact ScanResult.addTrace_addTrace tr tr2 _
      | found e f st2 tr2 => rfl
      | aborted st2 tr2 => rfl
      | panicked tr2 => rfl
    | found e f st1 tr => rfl
    | aborted st1 tr => rfl
    | panicked tr => rfl

theorem scanInfos_eq_scanCands (query : FontQuery) (p : FontProvider) (cls : FontClass)
    (infos : List FontInfo) (st : FontLoaderState) :
    scanInfos query p cls infos st =
      scanCands query (infos.map (fun info => (cls, p, info))) st := by
  induction infos generalizing st with
  | nil => rfl
  | cons info rest ih =>
    simp only [List.map_cons, scanInfos, scanCands]
    cases tryCandidate query p cls info st with
    | exhausted st1 tr => dsimp only; rw [ih st1]
    | found e f st1 tr => rfl
    | aborted st1 tr => rfl
    | panicked tr => rfl

theorem scanProviders_eq_scanCands (query : FontQuery) (provs : List FontProvider)
    (cls : FontClass) (st : FontLoaderState) :
    scanProviders query provs cls st =
      scanCands query (provs.flatMap (fun p => p.available.map (fun info => (cls, p, info)))) st := by
  induction provs generalizing st with
  | nil => rfl
  | cons p rest ih =>
    simp only [List.flatMap_cons, scanProviders]
    rw [scanCands_append]
    rw [scanInfos_eq_scanCands]
    cases scanCands query (p.available.map (fun info => (cls, p, info))) st with
    | exhausted st1 tr => dsimp only; rw [ih st1]
    | found e f st1 tr => rfl
    | aborted st1 tr => rfl
    | panicked tr => rfl

theorem scanClasses_eq_scanCands (query : FontQuery) (provs : List FontProvider)
    (classes : List FontClass) (st : FontLoaderState) :
    scanClasses query provs classes st = scanCands query (candidates provs classes) st := by
  induction classes generalizing st with
  | nil => rfl
  | cons cls rest ih =>
    simp only [candidates, List.flatMap_cons, scanClasses]
    rw [scanCands_append]
    rw [scanProviders_eq_scanCands]
    cases scanCands query (provs.flatMap (fun p => p.available.map (fun info => (cls, p, info)))) st with
    | exhausted st1 tr => dsimp only; rw [ih st1]; rfl
    | found e f st1 tr => rfl
    | aborted st1 tr => rfl
    | panicked tr => rfl

/-- Invariant: every info-cache entry points inside the font store. -/
def InfoCacheBounded (st : FontLoaderState) : Prop :=
  ∀ info i, lookupKey info st.info_cache = some i → i < st.fonts.length

/-- Invariant: every query-cache entry points to a store entry with an
assigned external index (a served query implies a served font). -/
def QueryCacheServed (st : FontLoaderState) : Prop :=
  ∀ q i, lookupKey q st.query_cache = some i → ∃ e f, st.fonts[i]? = some (some e, f)

/-- The well-formedness invariant of reachable loader states. -/
def WF (st : FontLoaderState) : Prop :=
  QueryCacheServed st ∧ InfoCacheBounded st

/-- Monotone evolution of loader state: info-cache entries keep their
indices, assigned external indices are never changed, and the font stored
at an index never changes. -/
def Preserves (st st' : FontLoaderState) : Prop :=
  (∀ info i, lookupKey info st.info_cache = some i → lookupKey info st'.info_cache = some i) ∧
  (∀ (n e : Nat) (f : Font), st.fonts[n]? = some (some e, f) → st'.fonts[n]? = some (some e, f)) ∧
  (∀ (n : Nat) (f : Font), (st.fonts[n]?).map Prod.snd = some f →
    (st'.fonts[n]?).map Prod.snd = some f)

theorem Preserves.refl (st : FontLoaderState) : Preserves st st :=
  ⟨fun _ _ h => h, fun _ _ _ h => h, fun _ _ h => h⟩

theorem Preserves.trans {st1 st2 st3 : FontLoaderState}
    (h1 : Preserves st1 st2) (h2 : Preserves st2 st3) : Preserves st1 st3 :=
  ⟨fun info i h => h2.1 info i (h1.1 info i h),
   fun n e f h => h2.2.1 n e f (h1.2.1 n e f h),
   fun n f h => h2.2.2 n f (h1.2.2 n f h)⟩

/-- Per-candidate state evolution: the state after one loop-body iteration
is either untouched in its store and info cache, or differs by assigning an
external index to one store entry that had none, or extends both the store
and the info cache together after a successful fetch and parse. -/
theorem Step.state_shape {q : FontQuery} {p : FontProvider} {cls : FontClass}
    {info : FontInfo} {st : FontLoaderState} {r : ScanResult}
    (h : Step q p cls info st r) (st' : FontLoaderState) (hs : r.stateOpt = some st') :
    (st'.fonts = st.fonts ∧ st'.info_cache = st.info_cache) ∨
    (∃ i L f, st.fonts[i]? = some (none, f) ∧ st'.fonts = st.fonts.set i (some L, f) ∧
      st'.info_cache = st.info_cache) ∨
    (∃ eo f, p.fetch info = .success f ∧ lookupKey info st.info_cache = none ∧
      st'.fonts = st.fonts ++ [(eo, f)] ∧
      st'.info_cache = (info, st.fonts.length) :: st.info_cache) := by
  cases h with
  | notViable hv =>
    cases Option.some.inj hs; exact Or.inl ⟨rfl, rfl⟩
  | cachedMissing i hv hc hg => simp [ScanResult.stateOpt] at hs
  | cachedNoChar i eo f hv hc hg hch =>
    cases Option.some.inj hs; exact Or.inl ⟨rfl, rfl⟩
  | cachedServe i e f hv hc hg hch =>
    cases Option.some.inj hs; exact Or.inl ⟨rfl, rfl⟩
  | cachedAssign i f hv hc hg hch =>
    cases Option.some.inj hs
    exact Or.inr (Or.inl ⟨i, st.inner_index.length, f, hg, rfl, rfl⟩)
  | fetchDeclined hv hc hf =>
    cases Option.some.inj hs; exact Or.inl ⟨rfl, rfl⟩
  | readFailed hv hc hf =>
    cases Option.some.inj hs; exact Or.inl ⟨rfl, rfl⟩
  | parseFailed hv hc hf =>
    cases Option.some.inj hs; exact Or.inl ⟨rfl, rfl⟩
  | freshNoChar f hv hc hf hch =>
    cases Option.some.inj hs
    exact Or.inr (Or.inr ⟨none, f, hf, hc, rfl, rfl⟩)
  | freshServe f hv hc hf hch =>
    cases Option.some.inj hs
    exact Or.inr (Or.inr ⟨some st.inner_index.length, f, hf, hc, rfl, rfl⟩)

/-- Any of the three per-candidate state shapes is a monotone evolution. -/
theorem Preserves.of_shape {st st' : FontLoaderState} {info : FontInfo}
    (h : (st'.fonts = st.fonts ∧ st'.info_cache = st.info_cache) ∨
      (∃ i L f, st.fonts[i]? = some (none, f) ∧ st'.fonts = st.fonts.set i (some L, f) ∧
        st'.info_cache = st.info_cache) ∨
      (∃ eo f, lookupKey info st.info_cache = none ∧
        st'.fonts = st.fonts ++ [(eo, f)] ∧
        st'.info_cache = (info, st.fonts.length) :: st.info_cache)) :
    Preserves st st' := by
  rcases h with ⟨hf, hi⟩ | ⟨i, L, f, hg, hf, hi⟩ | ⟨eo, f, hc, hf, hi⟩
  · exact ⟨fun info' n h => by rw [hi]; exact h,
      fun n e g h => by rw [hf]; exact h,
      fun n g h => by rw [hf]; exact h⟩
  · refine ⟨fun info' n h => by rw [hi]; exact h, ?_, ?_⟩
    · intro n e g h
      have hne : i ≠ n := by
        intro he
        rw [← he, hg] at h
        exact Option.noConfusion h (fun h2 => Prod.noConfusion h2 (fun h3 _ => Option.noConfusion h3))
      rw [hf, List.getElem?_set_ne hne]
      exact h
    · intro n g h
      by_cases hne : i = n
      · subst hne
        rw [hg] at h
        have hg2 : f = g := by simpa using h
        have hlt : i < st.fonts.length := (List.getElem?_eq_some.mp hg).1
        rw [hf, List.getElem?_set_eq_of_lt _ hlt]
        simp [hg2]
      · rw [hf, List.getElem?_set_ne hne]
        exact h
  · refine ⟨?_, ?_, ?_⟩
    · intro info' n h
      rw [hi, lookupKey_cons]
      have hne : info ≠ info' := by
        intro he
        rw [← he, hc] at h
        exact Option.noConfusion h
      simp [hne]
      exact h
    · intro n e g h
      have hlt : n < st.fonts.length := (List.getElem?_eq_some.mp h).1
      rw [hf, List.getElem?_append_left hlt]
      exact h
    · intro n g h
      cases hx : st.fonts[n]? with
      | none => rw [hx] at h; exact Option.noConfusion h
      | some x =>
        have hlt : n < st.fonts.length := (List.getElem?_eq_some.mp hx).1
        rw [hf, List.getElem?_append_left hlt, hx]
        rw [hx] at h
        exact h

theorem lookupKey_cons_some {α β : Type} [DecidableEq α] {k k' : α} {v j : β}
    {l : List (α × β)} (h : lookupKey k' ((k, v) :: l) = some j) :
    (k = k' ∧ v = j) ∨ (k ≠ k' ∧ lookupKey k' l = some j) := by
  rw [lookupKey_cons] at h
  by_cases he : k = k'
  · exact Or.inl ⟨he, Option.some.inj (by simpa [he] using h)⟩
  · exact Or.inr ⟨he, by simpa [he] using h⟩

/-- An exhausted (continue) iteration never touches the query cache. -/
theorem Step.exhausted_qc {q : FontQuery} {p : FontProvider} {cls : FontClass}
    {info : FontInfo} {st st' : FontLoaderState} {tr : List TraceEvent}
    (h : Step q p cls info st (.exhausted st' tr)) : st'.query_cache = st.query_cache := by
  cases h <;> rfl

/-- An aborting iteration (byte-read or parse failure) leaves the state
exactly as it was at the start of the iteration, and its only event is the
fetch attempt. -/
theorem Step.aborted_eq {q : FontQuery} {p : FontProvider} {cls : FontClass}
    {info : FontInfo} {st st' : FontLoaderState} {tr : List TraceEvent}
    (h : Step q p cls info st (.aborted st' tr)) :
    st' = st ∧ tr = [.fetch info] ∧ lookupKey info st.info_cache = none ∧
      (p.fetch info = .readFail ∨ p.fetch info = .parseFail) := by
  cases h with
  | readFailed hv hc hf => exact ⟨rfl, rfl, hc, Or.inl hf⟩
  | parseFailed hv hc hf => exact ⟨rfl, rfl, hc, Or.inr hf⟩

/-- A serving iteration caches the query at an index holding the served
font with the served external index assigned. -/
theorem Step.found_post {q : FontQuery} {p : FontProvider} {cls : FontClass}
    {info : FontInfo} {st st' : FontLoaderState} {e : Nat} {f : Font}
    {tr : List TraceEvent} (h : Step q p cls info st (.found e f st' tr)) :
    ∃ i, st'.query_cache = (q, i) :: st.query_cache ∧
      lookupKey q st'.query_cache = some i ∧ st'.fonts[i]? = some (some e, f) := by
  cases h with
  | cachedServe i e f hv hc hg hch =>
    exact ⟨i, rfl, by simp, hg⟩
  | cachedAssign i f hv hc hg hch =>
    have hlt : i < st.fonts.length := (List.getElem?_eq_some.mp hg).1
    exact ⟨i, rfl, by simp, by simpa using List.getElem?_set_eq_of_lt _ hlt⟩
  | freshServe f hv hc hf hch =>
    exact ⟨st.fonts.length, rfl, by simp, by simp⟩

/-- An iteration emits a fetch or parse event only for an info that is not
yet in the info cache. -/
theorem Step.no_refetch {q : FontQuery} {p : FontProvider} {cls : FontClass}
    {info : FontInfo} {st : FontLoaderState} {r : ScanResult}
    (h : Step q p cls info st r) (info' : FontInfo) (n : Nat)
    (hc : lookupKey info' st.info_cache = some n) :
    TraceEvent.fetch info' ∉ r.events ∧ TraceEvent.parsed info' ∉ r.events := by
  have hne : ∀ hcn : lookupKey info st.info_cache = none, info' ≠ info := by
    intro hcn he
    rw [he, hcn] at hc
    exact Option.noConfusion hc
  cases h with
  | notViable hv => simp [ScanResult.events]
  | cachedMissing i hv hcc hg => simp [ScanResult.events]
  | cachedNoChar i eo f hv hcc hg hch => simp [ScanResult.events]
  | cachedServe i e f hv hcc hg hch => simp [ScanResult.events]
  | cachedAssign i f hv hcc hg hch => simp [ScanResult.events]
  | fetchDeclined hv hcn hf => simp [ScanResult.events, hne hcn]
  | readFailed hv hcn hf => simp [ScanResult.events, hne hcn]
  | parseFailed hv hcn hf => simp [ScanResult.events, hne hcn]
  | freshNoChar f hv hcn hf hch => simp [ScanResult.events, hne hcn]
  | freshServe f hv hcn hf hch => simp [ScanResult.events, hne hcn]

/-- With a bounded info cache an iteration cannot hit an out-of-bounds
store index. -/
theorem Step.no_panic {q : FontQuery} {p : FontProvider} {cls : FontClass}
    {info : FontInfo} {st : FontLoaderState} {r : ScanResult}
    (h : Step q p cls info st r) (hb : InfoCacheBounded st) (tr : List TraceEvent) :
    r ≠ .panicked tr := by
  cases h with
  | cachedMissing i hv hc hg =>
    have hlt : i < st.fonts.length := hb info i hc
    have hge : st.fonts.length ≤ i := List.getElem?_eq_none_iff.mp hg
    omega
  | notViable hv => exact fun he => ScanResult.noConfusion he
  | cachedNoChar i eo f hv hc hg hch => exact fun he => ScanResult.noConfusion he
  | cachedServe i e f hv hc hg hch => exact fun he => ScanResult.noConfusion he
  | cachedAssign i f hv hc hg hch => exact fun he => ScanResult.noConfusion he
  | fetchDeclined hv hc hf => exact fun he => ScanResult.noConfusion he
  | readFailed hv hc hf => exact fun he => ScanResult.noConfusion he
  | parseFailed hv hc hf => exact fun he => ScanResult.noConfusion he
  | freshNoChar f hv hc hf hch => exact fun he => ScanResult.noConfusion he
  | freshServe f hv hc hf hch => exact fun he => ScanResult.noConfusion he

/-- One iteration preserves the well-formedness invariant. -/
theorem Step.wf {q : FontQuery} {p : FontProvider} {cls : FontClass}
    {info : FontInfo} {st : FontLoaderState} {r : ScanResult}
    (h : Step q p cls info st r) (hwf : WF st) (st' : FontLoaderState)
    (hs : r.stateOpt = some st') : WF st' := by
  cases h with
  | notViable hv => exact (Option.some.inj hs) ▸ hwf
  | cachedMissing i hv hc hg => simp [ScanResult.stateOpt] at hs
  | cachedNoChar i eo f hv hc hg hch => exact (Option.some.inj hs) ▸ hwf
  | fetchDeclined hv hc hf => exact (Option.some.inj hs) ▸ hwf
  | readFailed hv hc hf => exact (Option.some.inj hs) ▸ hwf
  | parseFailed hv hc hf => exact (Option.some.inj hs) ▸ hwf
  | cachedServe i e f hv hc hg hch =>
    cases Option.some.inj hs
    constructor
    · intro q' j hl
      rcases lookupKey_cons_some hl with ⟨he, hj⟩ | ⟨hne, hl2⟩
      · exact hj ▸ ⟨e, f, hg⟩
      · exact hwf.1 q' j hl2
    · exact hwf.2
  | cachedAssign i f hv hc hg hch =>
    cases Option.some.inj hs
    have hlt : i < st.fonts.length := (List.getElem?_eq_some.mp hg).1
    constructor
    · intro q' j hl
      rcases lookupKey_cons_some hl with ⟨he, hj⟩ | ⟨hne, hl2⟩
      · refine hj ▸ ⟨st.inner_index.length, f, ?_⟩
        simpa using List.getElem?_set_eq_of_lt _ hlt
      · obtain ⟨e2, f2, hg2⟩ := hwf.1 q' j hl2
        have hij : i ≠ j := by
          intro he2
          rw [← he2, hg] at hg2
          exact Option.noConfusion hg2 (fun h2 => Prod.noConfusion h2
            (fun h3 _ => Option.noConfusion h3))
        refine ⟨e2, f2, ?_⟩
        rw [List.getElem?_set_ne hij]
        exact hg2
    · intro info' j hl
      have := hwf.2 info' j hl
      simpa [List.length_set] using this
  | freshNoChar f hv hc hf hch =>
    cases Option.some.inj hs
    constructor
    · intro q' j hl
      obtain ⟨e2, f2, hg2⟩ := hwf.1 q' j hl
      have hlt : j < st.fonts.length := (List.getElem?_eq_some.mp hg2).1
      exact ⟨e2, f2, by rw [List.getElem?_append_left hlt]; exact hg2⟩
    · intro info' j hl
      rcases lookupKey_cons_some hl with ⟨he, hj⟩ | ⟨hne, hl2⟩
      · simp [← hj, List.length_append]
      · have := hwf.2 info' j hl2
        simp [List.length_append]
        omega
  | freshServe f hv hc hf hch =>
    cases Option.some.inj hs
    constructor
    · intro q' j hl
      rcases lookupKey_cons_some hl with ⟨he, hj⟩ | ⟨hne, hl2⟩
      · exact hj ▸ ⟨st.inner_index.length, f, by simp⟩
      · obtain ⟨e2, f2, hg2⟩ := hwf.1 q' j hl2
        have hlt : j < st.fonts.length := (List.getElem?_eq_some.mp hg2).1
        exact ⟨e2, f2, by rw [List.getElem?_append_left hlt]; exact hg2⟩
    · intro info' j hl
      rcases lookupKey_cons_some hl with ⟨he, hj⟩ | ⟨hne, hl2⟩
      · simp [← hj, List.length_append]
      · have := hwf.2 info' j hl2
        simp [List.length_append]
        omega

/-- One iteration is a monotone state evolution. -/
theorem Step.preserves {q : FontQuery} {p : FontProvider} {cls : FontClass}
    {info : FontInfo} {st : FontLoaderState} {r : ScanResult}
    (h : Step q p cls info st r) (st' : FontLoaderState)
    (hs : r.stateOpt = some st') : Preserves st st' := by
  rcases h.state_shape st' hs with h1 | h2 | ⟨eo, f, _, h2, h3, h4⟩
  · exact @Preserves.of_shape _ _ info (Or.inl h1)
  · exact @Preserves.of_shape _ _ info (Or.inr (Or.inl h2))
  · exact @Preserves.of_shape _ _ info (Or.inr (Or.inr ⟨eo, f, h2, h3, h4⟩))

/-- Scan-level state facts: a scan that continues or aborts leaves the
query cache untouched and evolves the state monotonically; a scan that
serves a font caches the scanned query at an index holding the served font
with the served external index. -/
theorem scanCands_props (q : FontQuery) (cs : List (FontClass × FontProvider × FontInfo))
    (st : FontLoaderState) :
    (∀ st' tr, scanCands q cs st = .exhausted st' tr →
      Preserves st st' ∧ st'.query_cache = st.query_cache) ∧
    (∀ st' tr, scanCands q cs st = .aborted st' tr →
      Preserves st st' ∧ st'.query_cache = st.query_cache) ∧
    (∀ e f st' tr, scanCands q cs st = .found e f st' tr →
      Preserves st st' ∧ ∃ i, st'.query_cache = (q, i) :: st.query_cache ∧
        lookupKey q st'.query_cache = some i ∧ st'.fonts[i]? = some (some e, f)) := by
  induction cs generalizing st with
  | nil =>
    refine ⟨?_, ?_, ?_⟩
    · intro st' tr h
      rw [scanCands] at h
      cases h
      exact ⟨Preserves.refl st, rfl⟩
    · intro st' tr h
      rw [scanCands] at h
      exact ScanResult.noConfusion h
    · intro e f st' tr h
      rw [scanCands] at h
      exact ScanResult.noConfusion h
  | cons c rest ih =>
    cases htc : tryCandidate q c.2.1 c.1 c.2.2 st with
    | exhausted st1 tr1 =>
      have hstep := htc ▸ step_tryCandidate q c.2.1 c.1 c.2.2 st
      have hp1 : Preserves st st1 := hstep.preserves st1 rfl
      have hqc1 : st1.query_cache = st.query_cache := hstep.exhausted_qc
      refine ⟨?_, ?_, ?_⟩
      · intro st' tr h
        rw [scanCands, htc] at h
        dsimp only at h
        cases hrec : scanCands q rest st1 with
        | exhausted st2 tr2 =>
          rw [hrec] at h
          dsimp only [ScanResult.addTrace] at h
          cases h
          obtain ⟨hp2, hqc2⟩ := (ih st1).1 _ _ hrec
          exact ⟨hp1.trans hp2, hqc2.trans hqc1⟩
        | found e2 f2 st2 tr2 => rw [hrec] at h; exact ScanResult.noConfusion h
        | aborted st2 tr2 => rw [hrec] at h; exact ScanResult.noConfusion h
        | panicked tr2 => rw [hrec] at h; exact ScanResult.noConfusion h
      · intro st' tr h
        rw [scanCands, htc] at h
        dsimp only at h
        cases hrec : scanCands q rest st1 with
        | aborted st2 tr2 =>
          rw [hrec] at h
          dsimp only [ScanResult.addTrace] at h
          cases h
          obtain ⟨hp2, hqc2⟩ := (ih st1).2.1 _ _ hrec
          exact ⟨hp1.trans hp2, hqc2.trans hqc1⟩
        | found e2 f2 st2 tr2 => rw [hrec] at h; exact ScanResult.noConfusion h
        | exhausted st2 tr2 => rw [hrec] at h; exact ScanResult.noConfusion h
        | panicked tr2 => rw [hrec] at h; exact ScanResult.noConfusion h
      · intro e f st' tr h
        rw [scanCands, htc] at h
        dsimp only at h
        cases hrec : scanCands q rest st1 with
        | found e2 f2 st2 tr2 =>
          rw [hrec] at h
          dsimp only [ScanResult.addTrace] at h
          cases h
          obtain ⟨hp2, i, hqc2, hlk, hg⟩ := (ih st1).2.2 _ _ _ _ hrec
          exact ⟨hp1.trans hp2, i, by rw [hqc2, hqc1], hlk, hg⟩
        | exhausted st2 tr2 => rw [hrec] at h; exact ScanResult.noConfusion h
        | aborted st2 tr2 => rw [hrec] at h; exact ScanResult.noConfusion h
        | panicked tr2 => rw [hrec] at h; exact ScanResult.noConfusion h
    | found e1 f1 st1 tr1 =>
      have hstep := htc ▸ step_tryCandidate q c.2.1 c.1 c.2.2 st
      refine ⟨?_, ?_, ?_⟩
      · intro st' tr h
        rw [scanCands, htc] at h
        exact ScanResult.noConfusion h
      · intro st' tr h
        rw [scanCands, htc] at h
        exact ScanResult.noConfusion h
      · intro e f st' tr h
        rw [scanCands, htc] at h
        cases h
        exact ⟨hstep.preserves st1 rfl, hstep.found_post⟩
    | aborted st1 tr1 =>
      have hstep := htc ▸ step_tryCandidate q c.2.1 c.1 c.2.2 st
      refine ⟨?_, ?_, ?_⟩
      · intro st' tr h
        rw [scanCands, htc] at h
        exact ScanResult.noConfusion h
      · intro st' tr h
        rw [scanCands, htc] at h
        cases h
        obtain ⟨he, _, _, _⟩ := hstep.aborted_eq
        subst he
        exact ⟨Preserves.refl _, rfl⟩
      · intro e f st' tr h
        rw [scanCands, htc] at h
        exact ScanResult.noConfusion h
    | panicked tr1 =>
      refine ⟨?_, ?_, ?_⟩
      · intro st' tr h
        rw [scanCands, htc] at h
        exact ScanResult.noConfusion h
      · intro st' tr h
        rw [scanCands, htc] at h
        exact ScanResult.noConfusion h
      · intro e f st' tr h
        rw [scanCands, htc] at h
        exact ScanResult.noConfusion h

/-- A scan preserves the well-formedness invariant. -/
theorem scanCands_wf (q : FontQuery) (cs : List (FontClass × FontProvider × FontInfo))
    (st : FontLoaderState) (hwf : WF st) :
    ∀ st', (scanCands q cs st).stateOpt = some st' → WF st' := by
  induction cs generalizing st with
  | nil =>
    intro st' hs
    rw [scanCands] at hs
    cases Option.some.inj hs
    exact hwf
  | cons c rest ih =>
    intro st' hs
    rw [scanCands] at hs
    cases htc : tryCandidate q c.2.1 c.1 c.2.2 st with
    | exhausted st1 tr1 =>
      rw [htc] at hs
      dsimp only at hs
      rw [ScanResult.stateOpt_addTrace] at hs
      have hstep := htc ▸ step_tryCandidate q c.2.1 c.1 c.2.2 st
      exact ih st1 (hstep.wf hwf st1 rfl) st' hs
    | found e1 f1 st1 tr1 =>
      rw [htc] at hs
      cases Option.some.inj hs
      exact (htc ▸ step_tryCandidate q c.2.1 c.1 c.2.2 st).wf hwf _ rfl
    | aborted st1 tr1 =>
      rw [htc] at hs
      cases Option.some.inj hs
      exact (htc ▸ step_tryCandidate q c.2.1 c.1 c.2.2 st).wf hwf _ rfl
    | panicked tr1 =>
      rw [htc] at hs
      dsimp only [ScanResult.stateOpt] at hs
      exact Option.noConfusion hs

/-- A scan from a well-formed state never hits an out-of-bounds store
access. -/
theorem scanCands_no_panic (q : FontQuery) (cs : List (FontClass × FontProvider × FontInfo))
    (st : FontLoaderState) (hwf : WF st) :
    ∀ tr, scanCands q cs st ≠ .panicked tr := by
  induction cs generalizing st with
  | nil =>
    intro tr h
    rw [scanCands] at h
    exact ScanResult.noConfusion h
  | cons c rest ih =>
    intro tr h
    rw [scanCands] at h
    cases htc : tryCandidate q c.2.1 c.1 c.2.2 st with
    | exhausted st1 tr1 =>
      rw [htc] at h
      dsimp only at h
      have hstep := htc ▸ step_tryCandidate q c.2.1 c.1 c.2.2 st
      cases hrec : scanCands q rest st1 with
      | panicked tr2 => exact ih st1 (hstep.wf hwf st1 rfl) tr2 hrec
      | exhausted st2 tr2 => rw [hrec] at h; exact ScanResult.noConfusion h
      | found e2 f2 st2 tr2 => rw [hrec] at h; exact ScanResult.noConfusion h
      | aborted st2 tr2 => rw [hrec] at h; exact ScanResult.noConfusion h
    | found e1 f1 st1 tr1 => rw [htc] at h; exact ScanResult.noConfusion h
    | aborted st1 tr1 => rw [htc] at h; exact ScanResult.noConfusion h
    | panicked tr1 =>
      exact absurd rfl ((htc ▸ step_tryCandidate q c.2.1 c.1 c.2.2 st).no_panic hwf.2 tr1)

/-- A scan never fetches or parses an info that is already in the info
cache, and the cache entry survives the scan. -/
theorem scanCands_no_refetch (q : FontQuery) (cs : List (FontClass × FontProvider × FontInfo))
    (st : FontLoaderState) (info : FontInfo) (i : Nat)
    (hc : lookupKey info st.info_cache = some i) :
    TraceEvent.fetch info ∉ (scanCands q cs st).events ∧
    TraceEvent.parsed info ∉ (scanCands q cs st).events ∧
    (∀ st', (scanCands q cs st).stateOpt = some st' →
      lookupKey info st'.info_cache = some i) := by
  induction cs generalizing st with
  | nil =>
    rw [scanCands]
    refine ⟨by simp [ScanResult.events], by simp [ScanResult.events], ?_⟩
    intro st' hs
    cases Option.some.inj hs
    exact hc
  | cons c rest ih =>
    rw [scanCands]
    cases htc : tryCandidate q c.2.1 c.1 c.2.2 st with
    | exhausted st1 tr1 =>
      have hstep := htc ▸ step_tryCandidate q c.2.1 c.1 c.2.2 st
      have hstep_tr := hstep.no_refetch info i hc
      have hc1 : lookupKey info st1.info_cache = some i :=
        (hstep.preserves st1 rfl).1 info i hc
      obtain ⟨ih1, ih2, ih3⟩ := ih st1 hc1
      dsimp only
      refine ⟨?_, ?_, ?_⟩
      · rw [ScanResult.events_addTrace]
        intro hmem
        rcases List.mem_append.mp hmem with hmem1 | hmem2
        · exact hstep_tr.1 (by simpa [ScanResult.events] using hmem1)
        · exact ih1 hmem2
      · rw [ScanResult.events_addTrace]
        intro hmem
        rcases List.mem_append.mp hmem with hmem1 | hmem2
        · exact hstep_tr.2 (by simpa [ScanResult.events] using hmem1)
        · exact ih2 hmem2
      · intro st' hs
        rw [ScanResult.stateOpt_addTrace] at hs
        exact ih3 st' hs
    | found e1 f1 st1 tr1 =>
      have hstep := htc ▸ step_tryCandidate q c.2.1 c.1 c.2.2 st
      have hstep_tr := hstep.no_refetch info i hc
      refine ⟨hstep_tr.1, hstep_tr.2, ?_⟩
      intro st' hs
      cases Option.some.inj hs
      exact (hstep.preserves _ rfl).1 info i hc
    | aborted st1 tr1 =>
      have hstep := htc ▸ step_tryCandidate q c.2.1 c.1 c.2.2 st
      have hstep_tr := hstep.no_refetch info i hc
      refine ⟨hstep_tr.1, hstep_tr.2, ?_⟩
      intro st' hs
      cases Option.some.inj hs
      exact (hstep.preserves _ rfl).1 info i hc
    | panicked tr1 =>
      have hstep := htc ▸ step_tryCandidate q c.2.1 c.1 c.2.2 st
      have hstep_tr := hstep.no_refetch info i hc
      refine ⟨hstep_tr.1, hstep_tr.2, ?_⟩
      intro st' hs
      dsimp only [ScanResult.stateOpt] at hs
      exact Option.noConfusion hs

/-- Computation: a query-cache hit on an entry with an assigned external
index serves it directly. -/
theorem get_hit {provs : List FontProvider} {q : FontQuery} {st : FontLoaderState}
    {index ext : Nat} {font : Font}
    (hq : lookupKey q st.query_cache = some index)
    (hg : st.fonts[index]? = some (some ext, font)) :
    get provs q st = ⟨.ok ext font, st, []⟩ := by
  simp [get, hq, hg]

/-- Computation: a query-cache hit on an entry without an external index
panics on the `unwrap`. -/
theorem get_hit_unassigned {provs : List FontProvider} {q : FontQuery} {st : FontLoaderState}
    {index : Nat} {font : Font}
    (hq : lookupKey q st.query_cache = some index)
    (hg : st.fonts[index]? = some (none, font)) :
    get provs q st = ⟨.panic, st, []⟩ := by
  simp [get, hq, hg]

/-- Computation: a query-cache hit on an out-of-bounds index panics. -/
theorem get_hit_missing {provs : List FontProvider} {q : FontQuery} {st : FontLoaderState}
    {index : Nat}
    (hq : lookupKey q st.query_cache = some index)
    (hg : st.fonts[index]? = none) :
    get provs q st = ⟨.panic, st, []⟩ := by
  simp [get, hq, hg]

/-- Computation: on a cache miss a serving scan decides the call. -/
theorem get_miss_found {provs : List FontProvider} {q : FontQuery} {st st' : FontLoaderState}
    {ext : Nat} {font : Font} {tr : List TraceEvent}
    (hq : lookupKey q st.query_cache = none)
    (hscan : scanClasses q provs q.fallback st = .found ext font st' tr) :
    get provs q st = ⟨.ok ext font, st', tr⟩ := by
  simp [get, hq, hscan]

/-- Computation: on a cache miss an exhausted scan yields no match. -/
theorem get_miss_exhausted {provs : List FontProvider} {q : FontQuery} {st st' : FontLoaderState}
    {tr : List TraceEvent}
    (hq : lookupKey q st.query_cache = none)
    (hscan : scanClasses q provs q.fallback st = .exhausted st' tr) :
    get provs q st = ⟨.noMatch, st', tr⟩ := by
  simp [get, hq, hscan]

/-- Computation: on a cache miss an aborted scan also yields no match. -/
theorem get_miss_aborted {provs : List FontProvider} {q : FontQuery} {st st' : FontLoaderState}
    {tr : List TraceEvent}
    (hq : lookupKey q st.query_cache = none)
    (hscan : scanClasses q provs q.fallback st = .aborted st' tr) :
    get provs q st = ⟨.noMatch, st', tr⟩ := by
  simp [get, hq, hscan]

/-- Computation: on a cache miss a panicking scan panics the call. -/
theorem get_miss_panicked {provs : List FontProvider} {q : FontQuery} {st : FontLoaderState}
    {tr : List TraceEvent}
    (hq : lookupKey q st.query_cache = none)
    (hscan : scanClasses q provs q.fallback st = .panicked tr) :
    get provs q st = ⟨.panic, st, tr⟩ := by
  simp [get, hq, hscan]

/-- A successful `get` leaves the query cached at an index that stores the
served font with the served external index assigned. -/
theorem get_ok_post (provs : List FontProvider) (q : FontQuery) (st : FontLoaderState)
    (r : GetResult) (hr : get provs q st = r) (e : Nat) (f : Font)
    (h : r.outcome = .ok e f) :
    ∃ i, lookupKey q r.state.query_cache = some i ∧
      r.state.fonts[i]? = some (some e, f) := by
  cases hq : lookupKey q st.query_cache with
  | some index =>
    cases hg : st.fonts[index]? with
    | none =>
      rw [get_hit_missing hq hg] at hr
      subst hr
      exact absurd h (by simp)
    | some pair =>
      obtain ⟨eo, font⟩ := pair
      cases eo with
      | some ext =>
        rw [get_hit hq hg] at hr
        subst hr
        obtain ⟨he, hf⟩ : ext = e ∧ font = f := by
          simpa [GetOutcome.ok.injEq] using h
        subst he
        subst hf
        exact ⟨index, hq, hg⟩
      | none =>
        rw [get_hit_unassigned hq hg] at hr
        subst hr
        exact absurd h (by simp)
  | none =>
    cases hscan : scanClasses q provs q.fallback st with
    | found ext font st' tr =>
      rw [get_miss_found hq hscan] at hr
      subst hr
      obtain ⟨he, hf⟩ : ext = e ∧ font = f := by
        simpa [GetOutcome.ok.injEq] using h
      subst he
      subst hf
      rw [scanClasses_eq_scanCands] at hscan
      obtain ⟨hp, i, hqc, hlk, hg⟩ :=
        (scanCands_props q (candidates provs q.fallback) st).2.2 _ _ _ _ hscan
      exact ⟨i, hlk, hg⟩
    | exhausted st' tr =>
      rw [get_miss_exhausted hq hscan] at hr
      subst hr
      exact absurd h (by simp)
    | aborted st' tr =>
      rw [get_miss_aborted hq hscan] at hr
      subst hr
      exact absurd h (by simp)
    | panicked tr =>
      rw [get_miss_panicked hq hscan] at hr
      subst hr
      exact absurd h (by simp)

/-- A `get` call evolves the state monotonically, and existing query-cache
entries keep their indices. -/
theorem get_preserves (provs : List FontProvider) (q : FontQuery) (st : FontLoaderState) :
    Preserves st (get provs q st).state ∧
    (∀ q' n, lookupKey q' st.query_cache = some n →
      lookupKey q' (get provs q st).state.query_cache = some n) := by
  cases hq : lookupKey q st.query_cache with
  | some index =>
    cases hg : st.fonts[index]? with
    | none => rw [get_hit_missing hq hg]; exact ⟨Preserves.refl st, fun _ _ h => h⟩
    | some pair =>
      obtain ⟨eo, font⟩ := pair
      cases eo with
      | some ext => rw [get_hit hq hg]; exact ⟨Preserves.refl st, fun _ _ h => h⟩
      | none => rw [get_hit_unassigned hq hg]; exact ⟨Preserves.refl st, fun _ _ h => h⟩
  | none =>
    cases hscan : scanClasses q provs q.fallback st with
    | found ext font st' tr =>
      rw [get_miss_found hq hscan]
      rw [scanClasses_eq_scanCands] at hscan
      obtain ⟨hp, i, hqc, hlk, hg⟩ :=
        (scanCands_props q (candidates provs q.fallback) st).2.2 _ _ _ _ hscan
      refine ⟨hp, ?_⟩
      intro q' n h
      rw [hqc, lookupKey_cons]
      have hne : q ≠ q' := by
        intro he
        rw [← he, hq] at h
        exact Option.noConfusion h
      simpa [hne] using h
    | exhausted st' tr =>
      rw [get_miss_exhausted hq hscan]
      rw [scanClasses_eq_scanCands] at hscan
      obtain ⟨hp, hqc⟩ :=
        (scanCands_props q (candidates provs q.fallback) st).1 _ _ hscan
      exact ⟨hp, fun q' n h => by rw [hqc]; exact h⟩
    | aborted st' tr =>
      rw [get_miss_aborted hq hscan]
      rw [scanClasses_eq_scanCands] at hscan
      obtain ⟨hp, hqc⟩ :=
        (scanCands_props q (candidates provs q.fallback) st).2.1 _ _ hscan
      exact ⟨hp, fun q' n h => by rw [hqc]; exact h⟩
    | panicked tr =>
      rw [get_miss_panicked hq hscan]
      exact ⟨Preserves.refl st, fun _ _ h => h⟩

/-- A `get` call preserves the well-formedness invariant. -/
theorem get_wf (provs : List FontProvider) (q : FontQuery) (st : FontLoaderState)
    (hwf : WF st) : WF (get provs q st).state := by
  cases hq : lookupKey q st.query_cache with
  | some index =>
    cases hg : st.fonts[index]? with
    | none => rw [get_hit_missing hq hg]; exact hwf
    | some pair =>
      obtain ⟨eo, font⟩ := pair
      cases eo with
      | some ext => rw [get_hit hq hg]; exact hwf
      | none => rw [get_hit_unassigned hq hg]; exact hwf
  | none =>
    cases hscan : scanClasses q provs q.fallback st with
    | found ext font st' tr =>
      rw [get_miss_found hq hscan]
      rw [scanClasses_eq_scanCands] at hscan
      exact scanCands_wf q _ st hwf st' (by rw [hscan]; rfl)
    | exhausted st' tr =>
      rw [get_miss_exhausted hq hscan]
      rw [scanClasses_eq_scanCands] at hscan
      exact scanCands_wf q _ st hwf st' (by rw [hscan]; rfl)
    | aborted st' tr =>
      rw [get_miss_aborted hq hscan]
      rw [scanClasses_eq_scanCands] at hscan
      exact scanCands_wf q _ st hwf st' (by rw [hscan]; rfl)
    | panicked tr =>
      rw [get_miss_panicked hq hscan]
      exact hwf

/-- From a well-formed state, `get` never panics: neither the query-cache
hit path (the `unwrap`) nor the scan can fail. -/
theorem get_no_panic (provs : List FontProvider) (q : FontQuery) (st : FontLoaderState)
    (hwf : WF st) : (get provs q st).outcome ≠ .panic := by
  cases hq : lookupKey q st.query_cache with
  | some index =>
    obtain ⟨e, f, hg⟩ := hwf.1 q index hq
    rw [get_hit hq hg]
    simp
  | none =>
    cases hscan : scanClasses q provs q.fallback st with
    | found ext font st' tr => rw [get_miss_found hq hscan]; simp
    | exhausted st' tr => rw [get_miss_exhausted hq hscan]; simp
    | aborted st' tr => rw [get_miss_aborted hq hscan]; simp
    | panicked tr =>
      rw [scanClasses_eq_scanCands] at hscan
      exact absurd hscan (scanCands_no_panic q _ st hwf tr)

/-- The initial loader state is well-formed. -/
theorem wf_init : WF FontLoaderState.init := by
  constructor
  · intro q i h
    exact Option.noConfusion h
  · intro info i h
    exact Option.noConfusion h

/-- Every reachable loader state is well-formed. -/
theorem wf_reachable {st : FontLoaderState} (h : Reachable st) : WF st := by
  induction h with
  | init => exact wf_init
  | step provs q hst ih => exact get_wf provs q _ ih

/-- A `get` call never fetches or parses an already-cached info, and the
cache entry survives the call. -/
theorem get_no_refetch (provs : List FontProvider) (q : FontQuery) (st : FontLoaderState)
    (info : FontInfo) (i : Nat) (hc : lookupKey info st.info_cache = some i) :
    TraceEvent.fetch info ∉ (get provs q st).trace ∧
    TraceEvent.parsed info ∉ (get provs q st).trace ∧
    lookupKey info (get provs q st).state.info_cache = some i := by
  cases hq : lookupKey q st.query_cache with
  | some index =>
    cases hg : st.fonts[index]? with
    | none => rw [get_hit_missing hq hg]; exact ⟨by simp, by simp, hc⟩
    | some pair =>
      obtain ⟨eo, font⟩ := pair
      cases eo with
      | some ext => rw [get_hit hq hg]; exact ⟨by simp, by simp, hc⟩
      | none => rw [get_hit_unassigned hq hg]; exact ⟨by simp, by simp, hc⟩
  | none =>
    obtain ⟨h1, h2, h3⟩ := scanCands_no_refetch q (candidates provs q.fallback) st info i hc
    rw [← scanClasses_eq_scanCands] at h1 h2 h3
    cases hscan : scanClasses q provs q.fallback st with
    | found ext font st' tr =>
      rw [hscan] at h1 h2 h3
      rw [get_miss_found hq hscan]
      exact ⟨h1, h2, h3 st' rfl⟩
    | exhausted st' tr =>
      rw [hscan] at h1 h2 h3
      rw [get_miss_exhausted hq hscan]
      exact ⟨h1, h2, h3 st' rfl⟩
    | aborted st' tr =>
      rw [hscan] at h1 h2 h3
      rw [get_miss_aborted hq hscan]
      exact ⟨h1, h2, h3 st' rfl⟩
    | panicked tr =>
      rw [hscan] at h1 h2
      rw [get_miss_panicked hq hscan]
      exact ⟨h1, h2, hc⟩

/-- The font a candidate info denotes relative to a state, assuming all
providers fetch according to `F`: the cached font if the info is in the
info cache, otherwise the font `F` would deliver. -/
def specFont (F : FontInfo → FetchResult) (st : FontLoaderState) (info : FontInfo) :
    Option Font :=
  match lookupKey info st.info_cache with
  | some i => (st.fonts[i]?).map Prod.snd
  | none =>
    match F info with
    | .success f => some f
    | _ => none

/-- Whether a scan candidate is viable for the query and its font contains
the requested character. -/
def candMatches (F : FontInfo → FetchResult) (st : FontLoaderState) (q : FontQuery)
    (c : FontClass × FontProvider × FontInfo) : Bool :=
  viableFor q c.1 c.2.2 &&
    ((specFont F st c.2.2).map (fun f => f.hasChar q.character)).getD false

/-- Invariant carried through a scan: the state stays bounded and denotes
the same font for every info as the scan's start state `st0`. -/
def SpecInv (F : FontInfo → FetchResult) (st0 st : FontLoaderState) : Prop :=
  InfoCacheBounded st ∧ ∀ info, specFont F st info = specFont F st0 info

/-- Appending a freshly fetched font and its info-cache entry preserves the
scan invariant. -/
theorem SpecInv.extend {F : FontInfo → FetchResult} {st0 st : FontLoaderState}
    {info : FontInfo} {g : Font}
    (hinv : SpecInv F st0 st) (hcl : lookupKey info st.info_cache = none)
    (hFg : F info = .success g) (eo : Option Nat)
    (qc : List (FontQuery × Nat)) (ii : List Nat) :
    SpecInv F st0 ⟨st.fonts ++ [(eo, g)], qc, (info, st.fonts.length) :: st.info_cache, ii⟩ := by
  constructor
  · intro info' j hl
    rcases lookupKey_cons_some hl with ⟨he, hj⟩ | ⟨hne, hl2⟩
    · subst hj
      simp only [List.length_append, List.length_cons, List.length_nil]
      omega
    · have := hinv.1 info' j hl2
      simp only [List.length_append, List.length_cons, List.length_nil]
      omega
  · intro info'
    by_cases he : info = info'
    · subst he
      have h1 : specFont F
          ⟨st.fonts ++ [(eo, g)], qc, (info, st.fonts.length) :: st.info_cache, ii⟩ info =
          some g := by
        simp [specFont]
      have h2 : specFont F st info = some g := by
        simp [specFont, hcl, hFg]
      rw [h1, ← hinv.2 info, h2]
    · have h1 : lookupKey info'
          ((info, st.fonts.length) :: st.info_cache) = lookupKey info' st.info_cache := by
        simp [he]
      unfold specFont
      dsimp only
      rw [h1]
      have h2 := hinv.2 info'
      unfold specFont at h2
      cases hcl2 : lookupKey info' st.info_cache with
      | some n =>
        rw [hcl2] at h2
        dsimp only
        have hlt : n < st.fonts.length := hinv.1 info' n hcl2
        rw [List.getElem?_append_left hlt]
        exact h2
      | none =>
        rw [hcl2] at h2
        dsimp only
        exact h2

/-- A matching candidate is served by its loop iteration, with the font
the start state denotes for its info. -/
theorem tryCandidate_match (F : FontInfo → FetchResult) {st0 st : FontLoaderState}
    {q : FontQuery} (cls : FontClass) (p : FontProvider) (info : FontInfo)
    (hinv : SpecInv F st0 st)
    (hF : ∀ info', p.fetch info' = F info')
    (hm : candMatches F st0 q (cls, p, info) = true) :
    ∃ e f st' tr, specFont F st0 info = some f ∧
      tryCandidate q p cls info st = .found e f st' tr := by
  unfold candMatches at hm
  rw [Bool.and_eq_true] at hm
  obtain ⟨hv, hm2⟩ := hm
  dsimp only at hv hm2
  cases hs : specFont F st0 info with
  | none => rw [hs] at hm2; simp at hm2
  | some f =>
    rw [hs] at hm2
    simp at hm2
    have hs' : specFont F st info = some f := (hinv.2 info).trans hs
    obtain ⟨r, htc⟩ : ∃ r, tryCandidate q p cls info st = r := ⟨_, rfl⟩
    have hstep := htc ▸ step_tryCandidate q p cls info st
    rw [htc]
    clear htc
    cases hstep with
    | notViable hv2 => rw [hv] at hv2; exact Bool.noConfusion hv2
    | cachedMissing i hv2 hc2 hg2 =>
      have hn : specFont F st info = none := by
        simp [specFont, hc2, hg2]
      rw [hs'] at hn
      exact Option.noConfusion hn
    | cachedNoChar i eo g hv2 hc2 hg2 hch2 =>
      have hsome : specFont F st info = some g := by
        simp [specFont, hc2, hg2]
      have hgf : g = f := Option.some.inj (hsome.symm.trans hs')
      rw [hgf, hm2] at hch2
      exact Bool.noConfusion hch2
    | cachedServe i e g hv2 hc2 hg2 hch2 =>
      have hsome : specFont F st info = some g := by
        simp [specFont, hc2, hg2]
      have hgf : g = f := Option.some.inj (hsome.symm.trans hs')
      subst hgf
      exact ⟨e, g, _, [], rfl, rfl⟩
    | cachedAssign i g hv2 hc2 hg2 hch2 =>
      have hsome : specFont F st info = some g := by
        simp [specFont, hc2, hg2]
      have hgf : g = f := Option.some.inj (hsome.symm.trans hs')
      subst hgf
      exact ⟨st.inner_index.length, g, _, [], rfl, rfl⟩
    | fetchDeclined hv2 hc2 hf2 =>
      have hFd : F info = .declined := (hF info).symm.trans hf2
      have hn : specFont F st info = none := by
        simp [specFont, hc2, hFd]
      rw [hs'] at hn
      exact Option.noConfusion hn
    | readFailed hv2 hc2 hf2 =>
      have hFd : F info = .readFail := (hF info).symm.trans hf2
      have hn : specFont F st info = none := by
        simp [specFont, hc2, hFd]
      rw [hs'] at hn
      exact Option.noConfusion hn
    | parseFailed hv2 hc2 hf2 =>
      have hFd : F info = .parseFail := (hF info).symm.trans hf2
      have hn : specFont F st info = none := by
        simp [specFont, hc2, hFd]
      rw [hs'] at hn
      exact Option.noConfusion hn
    | freshNoChar g hv2 hc2 hf2 hch2 =>
      have hFs : F info = .success g := (hF info).symm.trans hf2
      have hsome : specFont F st info = some g := by
        simp [specFont, hc2, hFs]
      have hgf : g = f := Option.some.inj (hsome.symm.trans hs')
      rw [hgf, hm2] at hch2
      exact Bool.noConfusion hch2
    | freshServe g hv2 hc2 hf2 hch2 =>
      have hFs : F info = .success g := (hF info).symm.trans hf2
      have hsome : specFont F st info = some g := by
        simp [specFont, hc2, hFs]
      have hgf : g = f := Option.some.inj (hsome.symm.trans hs')
      subst hgf
      exact ⟨st.inner_index.length, g, _, [.fetch info, .parsed info], rfl, rfl⟩

/-- A non-matching candidate makes its loop iteration continue, preserving
the scan invariant. -/
theorem tryCandidate_notMatch (F : FontInfo → FetchResult) {st0 st : FontLoaderState}
    {q : FontQuery} (cls : FontClass) (p : FontProvider) (info : FontInfo)
    (hinv : SpecInv F st0 st)
    (hF : ∀ info', p.fetch info' = F info')
    (hnf : ∀ info', F info' ≠ .readFail ∧ F info' ≠ .parseFail)
    (hm : candMatches F st0 q (cls, p, info) = false) :
    ∃ st1 tr1, tryCandidate q p cls info st = .exhausted st1 tr1 ∧ SpecInv F st0 st1 := by
  obtain ⟨r, htc⟩ : ∃ r, tryCandidate q p cls info st = r := ⟨_, rfl⟩
  have hstep := htc ▸ step_tryCandidate q p cls info st
  rw [htc]
  clear htc
  unfold candMatches at hm
  dsimp only at hm
  cases hstep with
  | notViable hv2 => exact ⟨st, [], rfl, hinv⟩
  | cachedMissing i hv2 hc2 hg2 =>
    have hlt : i < st.fonts.length := hinv.1 info i hc2
    have hge : st.fonts.length ≤ i := List.getElem?_eq_none_iff.mp hg2
    omega
  | cachedNoChar i eo g hv2 hc2 hg2 hch2 => exact ⟨st, [], rfl, hinv⟩
  | cachedServe i e g hv2 hc2 hg2 hch2 =>
    have hsome : specFont F st info = some g := by
      simp [specFont, hc2, hg2]
    rw [hv2, ← hinv.2 info, hsome] at hm
    simp [hch2] at hm
  | cachedAssign i g hv2 hc2 hg2 hch2 =>
    have hsome : specFont F st info = some g := by
      simp [specFont, hc2, hg2]
    rw [hv2, ← hinv.2 info, hsome] at hm
    simp [hch2] at hm
  | fetchDeclined hv2 hc2 hf2 => exact ⟨st, [.fetch info], rfl, hinv⟩
  | readFailed hv2 hc2 hf2 =>
    rw [hF info] at hf2
    exact absurd hf2 (hnf info).1
  | parseFailed hv2 hc2 hf2 =>
    rw [hF info] at hf2
    exact absurd hf2 (hnf info).2
  | freshNoChar g hv2 hc2 hf2 hch2 =>
    refine ⟨_, [.fetch info, .parsed info], rfl, ?_⟩
    exact hinv.extend hc2 ((hF info).symm.trans hf2) none st.query_cache st.inner_index
  | freshServe g hv2 hc2 hf2 hch2 =>
    have hFs : F info = .success g := (hF info).symm.trans hf2
    have hsome : specFont F st info = some g := by
      simp [specFont, hc2, hFs]
    rw [hv2, ← hinv.2 info, hsome] at hm
    simp [hch2] at hm

/-- The provider of a scan candidate is one of the registered providers. -/
theorem candidates_provider_mem {provs : List FontProvider} {classes : List FontClass}
    {c : FontClass × FontProvider × FontInfo} (h : c ∈ candidates provs classes) :
    c.2.1 ∈ provs := by
  unfold candidates at h
  rw [List.mem_flatMap] at h
  obtain ⟨cls, hcls, h2⟩ := h
  rw [List.mem_flatMap] at h2
  obtain ⟨p, hpmem, h3⟩ := h2
  rw [List.mem_map] at h3
  obtain ⟨info, hinfo, he⟩ := h3
  rw [← he]
  exact hpmem

/-- The scan serves the first candidate in scan order that is viable and
whose font contains the requested character, with exactly that font. -/
theorem scanCands_first_match (q : FontQuery) (F : FontInfo → FetchResult)
    (st0 : FontLoaderState) (cs : List (FontClass × FontProvider × FontInfo))
    (st : FontLoaderState)
    (hinv : SpecInv F st0 st)
    (hp : ∀ c ∈ cs, ∀ info', c.2.1.fetch info' = F info')
    (hnf : ∀ info', F info' ≠ .readFail ∧ F info' ≠ .parseFail)
    (c : FontClass × FontProvider × FontInfo)
    (hc : (cs.filter (fun c => candMatches F st0 q c)).head? = some c) :
    ∃ e f st' tr, specFont F st0 c.2.2 = some f ∧
      scanCands q cs st = .found e f st' tr := by
  induction cs generalizing st c with
  | nil => simp [List.filter_nil] at hc
  | cons c0 rest ih =>
    by_cases hm : candMatches F st0 q c0 = true
    · have hceq : c = c0 := by
        rw [List.filter_cons_of_pos hm] at hc
        exact (Option.some.inj hc).symm
      subst hceq
      obtain ⟨e, f, st', tr, hspec, htc⟩ :=
        tryCandidate_match F c.1 c.2.1 c.2.2 hinv (hp c (by simp)) hm
      rw [scanCands, htc]
      exact ⟨e, f, st', tr, hspec, rfl⟩
    · rw [Bool.not_eq_true] at hm
      obtain ⟨st1, tr1, htc, hinv1⟩ :=
        tryCandidate_notMatch F c0.1 c0.2.1 c0.2.2 hinv (hp c0 (by simp)) hnf hm
      have hc' : (rest.filter (fun c => candMatches F st0 q c)).head? = some c := by
        rw [List.filter_cons_of_neg (by simp [hm])] at hc
        exact hc
      obtain ⟨e, f, st', tr, hspec, hrec⟩ :=
        ih st1 hinv1 (fun c' h' => hp c' (by simp [h'])) c hc'
      rw [scanCands, htc]
      dsimp only
      rw [hrec]
      exact ⟨e, f, st', tr1 ++ tr, hspec, rfl⟩

/-- The fallback-class loop splits: classes later in the priority list are
scanned only if the whole pass over the earlier classes was exhausted
without a match, and an earlier-class result stands regardless of the
later classes. -/
theorem scanClasses_append (query : FontQuery) (provs : List FontProvider)
    (cs1 cs2 : List FontClass) (st : FontLoaderState) :
    scanClasses query provs (cs1 ++ cs2) st =
      match scanClasses query provs cs1 st with
      | .exhausted st1 tr => (scanClasses query provs cs2 st1).addTrace tr
      | r => r := by
  induction cs1 generalizing st with
  | nil => simp [scanClasses]
  | cons cls cs1 ih =>
    simp only [List.cons_append, scanClasses]
    cases scanProviders query provs cls st with
    | exhausted st1 tr =>
      dsimp only [List.append_eq]
      rw [ih st1]
      cases scanClasses query provs cs1 st1 with
      | exhausted st2 tr2 => exact ScanResult.addTrace_addTrace tr tr2 _
      | found e f st2 tr2 => rfl
      | aborted st2 tr2 => rfl
      | panicked tr2 => rfl
    | found e f st1 tr => rfl
    | aborted st1 tr => rfl
    | panicked tr => rfl

/-- Two scan results agree on everything the caller observes: the same
result kind, external index, font and trace.  Intermediate states must
agree except after a serve, where only the cached query key may differ. -/
def SameOutcome : ScanResult → ScanResult → Prop
  | .found e1 f1 _ t1, .found e2 f2 _ t2 => e1 = e2 ∧ f1 = f2 ∧ t1 = t2
  | .exhausted s1 t1, .exhausted s2 t2 => s1 = s2 ∧ t1 = t2
  | .aborted s1 t1, .aborted s2 t2 => s1 = s2 ∧ t1 = t2
  | .panicked t1, .panicked t2 => t1 = t2
  | _, _ => False

theorem SameOutcome.addTrace {r1 r2 : ScanResult} (h : SameOutcome r1 r2)
    (tr : List TraceEvent) : SameOutcome (r1.addTrace tr) (r2.addTrace tr) := by
  cases r1 <;> cases r2 <;>
    simp_all [SameOutcome, ScanResult.addTrace]

/-- Viability depends on the required classes only through membership. -/
theorem viableFor_congr {q1 q2 : FontQuery}
    (hcl : ∀ cl, cl ∈ q1.classes ↔ cl ∈ q2.classes) (cls : FontClass) (info : FontInfo) :
    viableFor q1 cls info = viableFor q2 cls info := by
  unfold viableFor
  have h : q1.classes.all (fun c => info.classes.contains c) =
      q2.classes.all (fun c => info.classes.contains c) := by
    rw [Bool.eq_iff_iff]
    simp only [List.all_eq_true]
    constructor
    · intro h cl hm
      exact h cl ((hcl cl).mpr hm)
    · intro h cl hm
      exact h cl ((hcl cl).mp hm)
  rw [h]

theorem commitCandidate_congr {q1 q2 : FontQuery}
    (hch : q1.character = q2.character) (index : Nat) (st : FontLoaderState)
    (tr : List TraceEvent) :
    SameOutcome (commitCandidate q1 index st tr) (commitCandidate q2 index st tr) := by
  unfold commitCandidate
  cases hg : st.fonts[index]? with
  | none => exact rfl
  | some pair =>
    obtain ⟨eo, font⟩ := pair
    dsimp only
    rw [← hch]
    cases hhc : font.hasChar q1.character with
    | false => simp only [Bool.false_eq_true, if_false]; exact ⟨rfl, rfl⟩
    | true =>
      simp only [if_true]
      cases eo with
      | some e => exact ⟨rfl, rfl, rfl⟩
      | none => exact ⟨rfl, rfl, rfl⟩

/-- One loop iteration treats two queries identically when they agree on
the character and on required-class membership. -/
theorem tryCandidate_congr {q1 q2 : FontQuery} (p : FontProvider) (cls : FontClass)
    (info : FontInfo) (st : FontLoaderState)
    (hch : q1.character = q2.character)
    (hcl : ∀ cl, cl ∈ q1.classes ↔ cl ∈ q2.classes) :
    SameOutcome (tryCandidate q1 p cls info st) (tryCandidate q2 p cls info st) := by
  unfold tryCandidate
  rw [viableFor_congr hcl cls info]
  cases hv : viableFor q2 cls info with
  | false => simp only [Bool.false_eq_true, if_false]; exact ⟨rfl, rfl⟩
  | true =>
    simp only [if_true]
    cases hc : lookupKey info st.info_cache with
    | some index => exact commitCandidate_congr hch index st []
    | none =>
      cases hf : p.fetch info with
      | declined => exact ⟨rfl, rfl⟩
      | readFail => exact ⟨rfl, rfl⟩
      | parseFail => exact ⟨rfl, rfl⟩
      | success font => exact commitCandidate_congr hch st.fonts.length _ _

/-- A whole scan treats two queries identically when they agree on the
character and on required-class membership. -/
theorem scanCands_congr {q1 q2 : FontQuery}
    (cs : List (FontClass × FontProvider × FontInfo)) (st : FontLoaderState)
    (hch : q1.character = q2.character)
    (hcl : ∀ cl, cl ∈ q1.classes ↔ cl ∈ q2.classes) :
    SameOutcome (scanCands q1 cs st) (scanCands q2 cs st) := by
  induction cs generalizing st with
  | nil => exact ⟨rfl, rfl⟩
  | cons c rest ih =>
    have h0 := tryCandidate_congr c.2.1 c.1 c.2.2 st hch hcl
    rw [scanCands, scanCands]
    cases h1 : tryCandidate q1 c.2.1 c.1 c.2.2 st with
    | exhausted st1 tr1 =>
      cases h2 : tryCandidate q2 c.2.1 c.1 c.2.2 st with
      | exhausted st2 tr2 =>
        rw [h1, h2] at h0
        obtain ⟨hst, htr⟩ := h0
        subst hst
        subst htr
        exact (ih st1).addTrace tr1
      | found e2 f2 st2 tr2 => rw [h1, h2] at h0; exact absurd h0 (by simp [SameOutcome])
      | aborted st2 tr2 => rw [h1, h2] at h0; exact absurd h0 (by simp [SameOutcome])
      | panicked tr2 => rw [h1, h2] at h0; exact absurd h0 (by simp [SameOutcome])
    | found e1 f1 st1 tr1 =>
      cases h2 : tryCandidate q2 c.2.1 c.1 c.2.2 st with
      | found e2 f2 st2 tr2 =>
        rw [h1, h2] at h0
        exact h0
      | exhausted st2 tr2 => rw [h1, h2] at h0; exact absurd h0 (by simp [SameOutcome])
      | aborted st2 tr2 => rw [h1, h2] at h0; exact absurd h0 (by simp [SameOutcome])
      | panicked tr2 => rw [h1, h2] at h0; exact absurd h0 (by simp [SameOutcome])
    | aborted st1 tr1 =>
      cases h2 : tryCandidate q2 c.2.1 c.1 c.2.2 st with
      | aborted st2 tr2 => rw [h1, h2] at h0; exact h0
      | exhausted st2 tr2 => rw [h1, h2] at h0; exact absurd h0 (by simp [SameOutcome])
      | found e2 f2 st2 tr2 => rw [h1, h2] at h0; exact absurd h0 (by simp [SameOutcome])
      | panicked tr2 => rw [h1, h2] at h0; exact absurd h0 (by simp [SameOutcome])
    | panicked tr1 =>
      cases h2 : tryCandidate q2 c.2.1 c.1 c.2.2 st with
      | panicked tr2 => rw [h1, h2] at h0; exact h0
      | exhausted st2 tr2 => rw [h1, h2] at h0; exact absurd h0 (by simp [SameOutcome])
      | found e2 f2 st2 tr2 => rw [h1, h2] at h0; exact absurd h0 (by simp [SameOutcome])
      | aborted st2 tr2 => rw [h1, h2] at h0; exact absurd h0 (by simp [SameOutcome])

/-! Concrete instances, following the concrete scenario of the spec:
provider `provP` advertises `infoA` (serif) then `infoB` (serif, bold);
`fontA` lacks the character Q while `fontB` has it. -/

def serif : FontClass := 0

def bold : FontClass := 1

def infoA : FontInfo := ⟨0, [serif]⟩

def infoB : FontInfo := ⟨1, [serif, bold]⟩

/-- An info whose bytes fail to read, for the failure scenarios. -/
def infoF : FontInfo := ⟨2, [serif]⟩

def fontA : Font := ⟨[('a', 1)]⟩

def fontB : Font := ⟨[('Q', 2), ('a', 3)]⟩

def provP : FontProvider :=
  ⟨[infoA, infoB], fun i =>
    if i = infoA then .success fontA
    else if i = infoB then .success fontB
    else .declined⟩

/-- A provider whose first advertised info read-fails on fetch. -/
def provF : FontProvider :=
  ⟨[infoF, infoB], fun i =>
    if i = infoF then .readFail
    else if i = infoB then .success fontB
    else .declined⟩

/-- A provider that advertises `infoA` but declines to fetch it. -/
def provD : FontProvider :=
  ⟨[infoA, infoB], fun i => if i = infoB then .success fontB else .declined⟩

def q0 : FontQuery := ⟨'Q', [], [serif]⟩

/-- Like `q0` but with two fallback classes. -/
def qSB : FontQuery := ⟨'Q', [], [serif, bold]⟩

/-- Queries identical up to the order of required classes. -/
def qRC1 : FontQuery := ⟨'Q', [serif, bold], [serif]⟩

def qRC2 : FontQuery := ⟨'Q', [bold, serif], [serif]⟩

/-- C2: get(Q) called twice with structurally equal Q returns the same
external index and the same font both times; the second call hits the
query cache, changes no state, and performs no provider fetch and no
parse (empty trace). -/
theorem C2_idempotent (provs : List FontProvider) (q : FontQuery) (st : FontLoaderState)
    (e : Nat) (f : Font) (h : (get provs q st).outcome = .ok e f) :
    get provs q (get provs q st).state = ⟨.ok e f, (get provs q st).state, []⟩ := by
  obtain ⟨i, hlk, hg⟩ := get_ok_post provs q st _ rfl e f h
  exact get_hit hlk hg

theorem C2_idempotent_witness :
    get [provP] q0 (get [provP] q0 FontLoaderState.init).state =
      ⟨.ok 0 fontB, (get [provP] q0 FontLoaderState.init).state, []⟩ :=
  C2_idempotent [provP] q0 FontLoaderState.init 0 fontB (by rfl)

/-- C3: a byte-read or parse failure on a viable, uncached candidate aborts
the scan at that candidate, discarding the remaining candidates, and the
aborted call returns the same absence result as exhaustion. -/
theorem C3_failure_aborts (provs : List FontProvider) (q : FontQuery)
    (p : FontProvider) (cls : FontClass) (info : FontInfo) (rest : List FontInfo)
    (st : FontLoaderState)
    (hq : lookupKey q st.query_cache = none) :
    (viableFor q cls info = true → lookupKey info st.info_cache = none →
      (p.fetch info = .readFail ∨ p.fetch info = .parseFail) →
      scanInfos q p cls (info :: rest) st = .aborted st [.fetch info]) ∧
    (∀ st' tr, scanClasses q provs q.fallback st = .aborted st' tr →
      get provs q st = ⟨.noMatch, st', tr⟩) ∧
    (∀ st' tr, scanClasses q provs q.fallback st = .exhausted st' tr →
      get provs q st = ⟨.noMatch, st', tr⟩) := by
  refine ⟨?_, ?_, ?_⟩
  · intro hv hcl hf
    have htc : tryCandidate q p cls info st = .aborted st [.fetch info] := by
      rcases hf with hf | hf
      · simp [tryCandidate, hv, hcl, hf]
      · simp [tryCandidate, hv, hcl, hf]
    rw [scanInfos, htc]
  · intro st' tr hscan
    exact get_miss_aborted hq hscan
  · intro st' tr hscan
    exact get_miss_exhausted hq hscan

theorem C3_failure_aborts_witness :
    scanInfos q0 provF serif [infoF, infoB] FontLoaderState.init =
      .aborted FontLoaderState.init [.fetch infoF] ∧
    get [provF] q0 FontLoaderState.init =
      ⟨.noMatch, FontLoaderState.init, [.fetch infoF]⟩ := by
  obtain ⟨h1, h2, h3⟩ :=
    C3_failure_aborts [provF] q0 provF serif infoF [infoB] FontLoaderState.init rfl
  exact ⟨h1 rfl rfl (Or.inl rfl), h2 FontLoaderState.init [.fetch infoF] (by rfl)⟩

/-- C4: when a provider declines to fetch a viable, uncached info it
advertised, the candidate is skipped with the state unchanged and the scan
continues with the remaining candidates. -/
theorem C4_declined_skips (q : FontQuery) (p : FontProvider) (cls : FontClass)
    (info : FontInfo) (rest : List FontInfo) (st : FontLoaderState)
    (hv : viableFor q cls info = true)
    (hcl : lookupKey info st.info_cache = none)
    (hd : p.fetch info = .declined) :
    tryCandidate q p cls info st = .exhausted st [.fetch info] ∧
    scanInfos q p cls (info :: rest) st =
      (scanInfos q p cls rest st).addTrace [.fetch info] := by
  have htc : tryCandidate q p cls info st = .exhausted st [.fetch info] := by
    simp [tryCandidate, hv, hcl, hd]
  refine ⟨htc, ?_⟩
  rw [scanInfos, htc]

theorem C4_declined_skips_witness :
    tryCandidate q0 provD serif infoA FontLoaderState.init =
      .exhausted FontLoaderState.init [.fetch infoA] ∧
    scanInfos q0 provD serif [infoA, infoB] FontLoaderState.init =
      (scanInfos q0 provD serif [infoB] FontLoaderState.init).addTrace [.fetch infoA] :=
  C4_declined_skips q0 provD serif infoA [infoB] FontLoaderState.init rfl rfl rfl

/-- C5: in every reachable loader state, every query-cache entry points to
a store entry with an assigned external index, so `get` can never panic,
in particular not on the query-cache-hit unwrap. -/
theorem C5_hit_unwrap_safe (st : FontLoaderState) (h : Reachable st) :
    (∀ q i, lookupKey q st.query_cache = some i →
      ∃ e f, st.fonts[i]? = some (some e, f)) ∧
    (∀ provs q, (get provs q st).outcome ≠ .panic) := by
  have hwf := wf_reachable h
  exact ⟨hwf.1, fun provs q => get_no_panic provs q st hwf⟩

theorem C5_hit_unwrap_safe_witness :
    (∀ q i, lookupKey q (get [provP] q0 FontLoaderState.init).state.query_cache = some i →
      ∃ e f, (get [provP] q0 FontLoaderState.init).state.fonts[i]? = some (some e, f)) ∧
    (∀ provs q, (get provs q (get [provP] q0 FontLoaderState.init).state).outcome ≠ .panic) :=
  C5_hit_unwrap_safe _ (Reachable.step [provP] q0 Reachable.init)

/-- C6: fallback classes earlier in the priority list are exhausted across
all providers before any later class is scanned: the scan over the
concatenated class list runs the later classes only from the exhausted
state of the earlier pass, and an earlier-pass match decides the whole
call. -/
theorem C6_fallback_order (provs : List FontProvider) (q : FontQuery)
    (cs1 cs2 : List FontClass) (st : FontLoaderState)
    (hfb : q.fallback = cs1 ++ cs2)
    (hq : lookupKey q st.query_cache = none) :
    (scanClasses q provs (cs1 ++ cs2) st =
      match scanClasses q provs cs1 st with
      | .exhausted st1 tr => (scanClasses q provs cs2 st1).addTrace tr
      | r => r) ∧
    (∀ e f st' tr, scanClasses q provs cs1 st = .found e f st' tr →
      get provs q st = ⟨.ok e f, st', tr⟩) := by
  refine ⟨scanClasses_append q provs cs1 cs2 st, ?_⟩
  intro e f st' tr h1
  have hscan : scanClasses q provs q.fallback st = .found e f st' tr := by
    rw [hfb, scanClasses_append, h1]
  exact get_miss_found hq hscan

theorem C6_fallback_order_witness :
    (scanClasses qSB [provP] ([serif] ++ [bold]) FontLoaderState.init =
      match scanClasses qSB [provP] [serif] FontLoaderState.init with
      | .exhausted st1 tr => (scanClasses qSB [provP] [bold] st1).addTrace tr
      | r => r) ∧
    (∀ e f st' tr, scanClasses qSB [provP] [serif] FontLoaderState.init = .found e f st' tr →
      get [provP] qSB FontLoaderState.init = ⟨.ok e f, st', tr⟩) :=
  C6_fallback_order [provP] qSB [serif] [bold] FontLoaderState.init rfl rfl

/-- C7: once the info cache maps an info to an internal index, no later
`get` call on the loader fetches or parses that info again, and the cache
entry keeps its index. -/
theorem C7_dedup_load (provs : List FontProvider) (q : FontQuery) (st : FontLoaderState)
    (info : FontInfo) (i : Nat) (hc : lookupKey info st.info_cache = some i) :
    lookupKey info (get provs q st).state.info_cache = some i ∧
    TraceEvent.fetch info ∉ (get provs q st).trace ∧
    TraceEvent.parsed info ∉ (get provs q st).trace := by
  obtain ⟨h1, h2, h3⟩ := get_no_refetch provs q st info i hc
  exact ⟨h3, h1, h2⟩

theorem C7_dedup_load_witness :
    lookupKey infoA
      (get [provP] qSB (get [provP] q0 FontLoaderState.init).state).state.info_cache = some 0 ∧
    TraceEvent.fetch infoA ∉ (get [provP] qSB (get [provP] q0 FontLoaderState.init).state).trace ∧
    TraceEvent.parsed infoA ∉
      (get [provP] qSB (get [provP] q0 FontLoaderState.init).state).trace :=
  C7_dedup_load [provP] qSB (get [provP] q0 FontLoaderState.init).state infoA 0 (by rfl)

/-- C10: an aborting candidate (byte-read or parse failure) leaves the
loader state exactly as it was at the start of that candidate — no store
entry, no cache entry, no external index; and in every iteration the store
and the info cache grow only together, only after a successful fetch and
parse. -/
theorem C10_failed_load_no_state_change (q : FontQuery) (p : FontProvider)
    (cls : FontClass) (info : FontInfo) (st : FontLoaderState) :
    (∀ st' tr, tryCandidate q p cls info st = .aborted st' tr → st' = st) ∧
    (∀ st', (tryCandidate q p cls info st).stateOpt = some st' →
      (st'.fonts.length = st.fonts.length ∧ st'.info_cache = st.info_cache) ∨
      (∃ f, p.fetch info = .success f ∧ lookupKey info st.info_cache = none ∧
        st'.info_cache = (info, st.fonts.length) :: st.info_cache ∧
        st'.fonts.length = st.fonts.length + 1)) := by
  constructor
  · intro st' tr h
    exact ((h ▸ step_tryCandidate q p cls info st).aborted_eq).1
  · intro st' hs
    rcases (step_tryCandidate q p cls info st).state_shape st' hs with
      ⟨hf, hi⟩ | ⟨i, L, f, hg, hf, hi⟩ | ⟨eo, f, hfs, hcl, hf, hi⟩
    · exact Or.inl ⟨by rw [hf], hi⟩
    · exact Or.inl ⟨by rw [hf]; simp, hi⟩
    · exact Or.inr ⟨f, hfs, hcl, hi, by rw [hf]; simp⟩

theorem C10_failed_load_no_state_change_witness :
    (∀ st' tr, tryCandidate q0 provF serif infoF FontLoaderState.init = .aborted st' tr →
      st' = FontLoaderState.init) ∧
    (∀ st', (tryCandidate q0 provF serif infoF FontLoaderState.init).stateOpt = some st' →
      (st'.fonts.length = FontLoaderState.init.fonts.length ∧
        st'.info_cache = FontLoaderState.init.info_cache) ∨
      (∃ f, provF.fetch infoF = .success f ∧
        lookupKey infoF FontLoaderState.init.info_cache = none ∧
        st'.info_cache = (infoF, FontLoaderState.init.fonts.length) ::
          FontLoaderState.init.info_cache ∧
        st'.fonts.length = FontLoaderState.init.fonts.length + 1)) :=
  C10_failed_load_no_state_change q0 provF serif infoF FontLoaderState.init

/-- C1: with a fixed provider registration order and stable per-provider
listings (all fetches consistent with a function `F`, none failing), `get`
on an uncached query returns the font of the first
(fallback-class, provider, info) triple in scan order — fallback classes
outermost, providers in registration order, infos in listing order — that
is viable and whose font contains the query's character; in particular,
when an earlier-registered provider has such a triple for the same class,
the result never comes from a later provider's triple. -/
theorem C1_first_candidate_wins (provs : List FontProvider) (F : FontInfo → FetchResult)
    (q : FontQuery) (st : FontLoaderState)
    (hq : lookupKey q st.query_cache = none)
    (hb : InfoCacheBounded st)
    (hF : ∀ p ∈ provs, ∀ info, p.fetch info = F info)
    (hnf : ∀ info, F info ≠ .readFail ∧ F info ≠ .parseFail)
    (c : FontClass × FontProvider × FontInfo)
    (hc : ((candidates provs q.fallback).filter
      (fun c => candMatches F st q c)).head? = some c) :
    ∃ e f, specFont F st c.2.2 = some f ∧ f.hasChar q.character = true ∧
      (get provs q st).outcome = .ok e f := by
  have hinv : SpecInv F st st := ⟨hb, fun _ => rfl⟩
  have hp : ∀ c' ∈ candidates provs q.fallback, ∀ info', c'.2.1.fetch info' = F info' :=
    fun c' h' info' => hF c'.2.1 (candidates_provider_mem h') info'
  obtain ⟨e, f, st', tr, hspec, hscan⟩ :=
    scanCands_first_match q F st (candidates provs q.fallback) st hinv hp hnf c hc
  have hscan2 : scanClasses q provs q.fallback st = .found e f st' tr := by
    rw [scanClasses_eq_scanCands]
    exact hscan
  rw [get_miss_found hq hscan2]
  have hm : candMatches F st q c = true :=
    List.of_mem_filter (List.mem_of_mem_head? hc)
  unfold candMatches at hm
  rw [Bool.and_eq_true] at hm
  obtain ⟨hv, hm2⟩ := hm
  rw [hspec] at hm2
  refine ⟨e, f, hspec, by simpa using hm2, rfl⟩

theorem C1_first_candidate_wins_witness :
    ∃ e f, specFont provP.fetch FontLoaderState.init infoB = some f ∧
      f.hasChar 'Q' = true ∧
      (get [provP] q0 FontLoaderState.init).outcome = .ok e f :=
  C1_first_candidate_wins [provP] provP.fetch q0 FontLoaderState.init rfl
    (fun info i h => Option.noConfusion h)
    (by
      intro p hp info
      simp only [List.mem_singleton] at hp
      subst hp
      rfl)
    (by
      intro info
      by_cases h1 : info = infoA
      · simp [provP, h1]
      · by_cases h2 : info = infoB
        · simp [provP, h1, h2, show infoB ≠ infoA from by decide]
        · simp [provP, h1, h2])
    (serif, provP, infoB) rfl

/-- C8: external indices, once assigned to a store entry, never change; so
two successful `get` calls whose queries resolve to the same store entry
return the same external index and the same font. -/
theorem C8_stable_external_index (provs1 provs2 : List FontProvider)
    (q1 q2 : FontQuery) (st : FontLoaderState) (e1 e2 : Nat) (f1 f2 : Font) (i : Nat)
    (h1 : (get provs1 q1 st).outcome = .ok e1 f1)
    (h2 : (get provs2 q2 (get provs1 q1 st).state).outcome = .ok e2 f2)
    (hi1 : lookupKey q1
      (get provs2 q2 (get provs1 q1 st).state).state.query_cache = some i)
    (hi2 : lookupKey q2
      (get provs2 q2 (get provs1 q1 st).state).state.query_cache = some i) :
    e1 = e2 ∧ f1 = f2 ∧
    (∀ (n e : Nat) (f : Font), st.fonts[n]? = some (some e, f) →
      (get provs2 q2 (get provs1 q1 st).state).state.fonts[n]? = some (some e, f)) := by
  obtain ⟨j, hlk1, hg1⟩ := get_ok_post provs1 q1 st _ rfl e1 f1 h1
  have hlk1b : lookupKey q1
      (get provs2 q2 (get provs1 q1 st).state).state.query_cache = some j :=
    (get_preserves provs2 q2 (get provs1 q1 st).state).2 q1 j hlk1
  have hij : j = i := Option.some.inj (hlk1b.symm.trans hi1)
  subst hij
  have hg1b : (get provs2 q2 (get provs1 q1 st).state).state.fonts[j]? =
      some (some e1, f1) :=
    (get_preserves provs2 q2 (get provs1 q1 st).state).1.2.1 j e1 f1 hg1
  obtain ⟨k, hlk2, hg2⟩ :=
    get_ok_post provs2 q2 (get provs1 q1 st).state _ rfl e2 f2 h2
  have hkj : k = j := Option.some.inj (hlk2.symm.trans hi2)
  subst hkj
  have heq : (some (some e1, f1) : Option (Option Nat × Font)) = some (some e2, f2) :=
    hg1b.symm.trans hg2
  have he : e1 = e2 := by
    have := Option.some.inj heq
    exact Option.some.inj (congrArg Prod.fst this)
  have hf : f1 = f2 := by
    have := Option.some.inj heq
    exact congrArg Prod.snd this
  refine ⟨he, hf, ?_⟩
  intro n e f hg
  exact (get_preserves provs2 q2 (get provs1 q1 st).state).1.2.1 n e f
    ((get_preserves provs1 q1 st).1.2.1 n e f hg)

theorem C8_stable_external_index_witness :
    (0 : Nat) = 0 ∧ fontB = fontB ∧
    (∀ (n e : Nat) (f : Font), FontLoaderState.init.fonts[n]? = some (some e, f) →
      (get [provP] qSB
        (get [provP] q0 FontLoaderState.init).state).state.fonts[n]? = some (some e, f)) :=
  C8_stable_external_index [provP] [provP] q0 qSB FontLoaderState.init 0 0 fontB fontB 1
    (by rfl) (by rfl) (by rfl) (by rfl)

/-- C9: the order of the required classes does not affect matching: two
uncached queries that agree on the character and the fallback list and
whose required-class lists are permutations of each other get the same
outcome (same external index and font, or the same absence) and the same
trace of provider interactions from the scan. -/
theorem C9_required_class_order (provs : List FontProvider) (q1 q2 : FontQuery)
    (st : FontLoaderState)
    (hch : q1.character = q2.character)
    (hfb : q1.fallback = q2.fallback)
    (hperm : q1.classes.Perm q2.classes)
    (hq1 : lookupKey q1 st.query_cache = none)
    (hq2 : lookupKey q2 st.query_cache = none) :
    (get provs q1 st).outcome = (get provs q2 st).outcome ∧
    (get provs q1 st).trace = (get provs q2 st).trace := by
  have hcl : ∀ cl, cl ∈ q1.classes ↔ cl ∈ q2.classes := fun cl => hperm.mem_iff
  have h0 : SameOutcome (scanClasses q1 provs q1.fallback st)
      (scanClasses q2 provs q2.fallback st) := by
    rw [scanClasses_eq_scanCands, scanClasses_eq_scanCands, hfb]
    exact scanCands_congr _ st hch hcl
  cases hs1 : scanClasses q1 provs q1.fallback st with
  | found e1 f1 st1 tr1 =>
    cases hs2 : scanClasses q2 provs q2.fallback st with
    | found e2 f2 st2 tr2 =>
      rw [hs1, hs2] at h0
      obtain ⟨he, hf, ht⟩ := h0
      rw [get_miss_found hq1 hs1, get_miss_found hq2 hs2, he, hf, ht]
      exact ⟨rfl, rfl⟩
    | exhausted st2 tr2 => rw [hs1, hs2] at h0; exact absurd h0 (by simp [SameOutcome])
    | aborted st2 tr2 => rw [hs1, hs2] at h0; exact absurd h0 (by simp [SameOutcome])
    | panicked tr2 => rw [hs1, hs2] at h0; exact absurd h0 (by simp [SameOutcome])
  | exhausted st1 tr1 =>
    cases hs2 : scanClasses q2 provs q2.fallback st with
    | exhausted st2 tr2 =>
      rw [hs1, hs2] at h0
      obtain ⟨hst, ht⟩ := h0
      rw [get_miss_exhausted hq1 hs1, get_miss_exhausted hq2 hs2, ht]
      exact ⟨rfl, rfl⟩
    | found e2 f2 st2 tr2 => rw [hs1, hs2] at h0; exact absurd h0 (by simp [SameOutcome])
    | aborted st2 tr2 => rw [hs1, hs2] at h0; exact absurd h0 (by simp [SameOutcome])
    | panicked tr2 => rw [hs1, hs2] at h0; exact absurd h0 (by simp [SameOutcome])
  | aborted st1 tr1 =>
    cases hs2 : scanClasses q2 provs q2.fallback st with
    | aborted st2 tr2 =>
      rw [hs1, hs2] at h0
      obtain ⟨hst, ht⟩ := h0
      rw [get_miss_aborted hq1 hs1, get_miss_aborted hq2 hs2, ht]
      exact ⟨rfl, rfl⟩
    | found e2 f2 st2 tr2 => rw [hs1, hs2] at h0; exact absurd h0 (by simp [SameOutcome])
    | exhausted st2 tr2 => rw [hs1, hs2] at h0; exact absurd h0 (by simp [SameOutcome])
    | panicked tr2 => rw [hs1, hs2] at h0; exact absurd h0 (by simp [SameOutcome])
  | panicked tr1 =>
    cases hs2 : scanClasses q2 provs q2.fallback st with
    | panicked tr2 =>
      rw [hs1, hs2] at h0
      rw [get_miss_panicked hq1 hs1, get_miss_panicked hq2 hs2, h0]
      exact ⟨rfl, rfl⟩
    | found e2 f2 st2 tr2 => rw [hs1, hs2] at h0; exact absurd h0 (by simp [SameOutcome])
    | exhausted st2 tr2 => rw [hs1, hs2] at h0; exact absurd h0 (by simp [SameOutcome])
    | aborted st2 tr2 => rw [hs1, hs2] at h0; exact absurd h0 (by simp [SameOutcome])

theorem C9_required_class_order_witness :
    (get [provP] qRC1 FontLoaderState.init).outcome =
      (get [provP] qRC2 FontLoaderState.init).outcome ∧
    (get [provP] qRC1 FontLoaderState.init).trace =
      (get [provP] qRC2 FontLoaderState.init).trace :=
  C9_required_class_order [provP] qRC1 qRC2 FontLoaderState.init rfl rfl
    (by decide) rfl rfl

end FontLoaderModel
